import Mathlib

/-!
Verification development for the rchitect scaffolding CLI.

Shallow embedding of the name-resolution, path-derivation, rename and
barrel-update logic of the repository:

* `src/utils/validate.js`  — `validateName`, `toCamelCase`
* `src/utils/templates.js` — `getExtensions` and the per-resource template
  functions (modelled by the list of generated file names, in object-key
  insertion order, plus the returned `resolvedName` where the source
  returns one; the template file *contents* are not consulted by any
  claim and are elided)
* `src/mcp/server.js`      — `handleGetProjectConfig`,
  `handleGetArchitectureGuide`, `handleResolveResourcePath`
* `src/commands/add.js`    — the target-directory/file resolution of the
  add command
* `src/commands/rename.js` — `resolveDir`, `buildReplacementPairs`,
  `applyReplacements`, `applyRenameRecursive`, `updateBarrelForRename`,
  `renameCommand`
* `src/commands/remove.js` — `resolveTargetDir`, `removeCommand`
* `src/utils/barrel.js`    — `updateBarrel`

Strings are modelled as `List Char` (`Str`).  JavaScript's
`s.split(from).join(to)` (replace every non-overlapping occurrence,
scanning left to right) is `repl`.  The structure tables
(`src/structures/react.js`, `src/structures/nextjs.js`) are not part of
the repository snapshot; every call site treats a structure as an opaque
record of path functions, so the embedding quantifies over an abstract
`Structure`/`Tables` (their only property used by any theorem — that the
per-framework tables map exactly the four documented patterns to a
structure and anything else to none — is visible in `tests/structures.test.ts`
and `doctor`'s `VALID_PATTERNS`).
-/

namespace Rchitect

/-- Strings of the JavaScript source, modelled as lists of characters. -/
abbrev Str := List Char

/-- Path join for the already-normalized segments this code base produces:
`path.join(a, b)` with `a` non-empty, `b` relative and neither containing
`..`, `.` or doubled separators is plain slash concatenation. -/
def pjoin (a b : Str) : Str := a ++ "/".data ++ b

/-- Lowercases one ASCII character, as JavaScript `toLowerCase` does on the
ASCII range (the only range reachable here: names are validated to
`^[A-Z][a-zA-Z0-9]*$` before the camel form is ever used for a path). -/
def jsLowerChar (c : Char) : Char :=
  if 'A' ≤ c ∧ c ≤ 'Z' then Char.ofNat (c.toNat + 32) else c

/-- Whether a character is ASCII whitespace, for JavaScript `trim`. -/
def jsIsSpace (c : Char) : Bool :=
  c = ' ' ∨ c = '\t' ∨ c = '\n' ∨ c = '\x0d' ∨ c = '\x0b' ∨ c = '\x0c'

/-- JavaScript `String.prototype.trim` restricted to ASCII whitespace. -/
def jsTrim (s : Str) : Str :=
  (s.dropWhile jsIsSpace).reverse.dropWhile jsIsSpace |>.reverse

/-- Uppercase ASCII letter, the `[A-Z]` class of the source's regex. -/
def isUpperAZ (c : Char) : Bool := 'A' ≤ c && c ≤ 'Z'

/-- The `[a-zA-Z0-9]` class of the source's regex. -/
def isAlnumAscii (c : Char) : Bool :=
  ('A' ≤ c && c ≤ 'Z') || ('a' ≤ c && c ≤ 'z') || ('0' ≤ c && c ≤ '9')

/-- The test `PASCAL_CASE_REGEX.test(name)` for
`PASCAL_CASE_REGEX = /^[A-Z][a-zA-Z0-9]*$/` (src/utils/validate.js line 3). -/
def pascalCaseTest (s : Str) : Bool :=
  match s with
  | [] => false
  | c :: rest => isUpperAZ c && rest.all isAlnumAscii

/-- Model of `validateName(name, type)` (src/utils/validate.js lines 5-19):
`true` models the `return true` path, `false` models `process.exit(1)`
(the `type` argument only feeds the printed message and is dropped). -/
def validateName (name : Str) : Bool :=
  if name = [] then false
  else if jsTrim name = [] then false
  else pascalCaseTest name

/-- Model of `toCamelCase(name)` (src/utils/validate.js lines 21-23):
lowercase the first character, keep the rest. -/
def toCamelCase : Str → Str
  | [] => []
  | c :: rest => jsLowerChar c :: rest

/-- Fuel-driven scanner behind `repl`.  One character of `s` (at least) is
consumed per step whenever `f` is non-empty, so fuel `s.length` suffices. -/
def splitJoinAux : Nat → Str → Str → Str → Str
  | _, _, _, [] => []
  | 0, _, _, s => s
  | fuel + 1, f, t, a :: s =>
      if f.isPrefixOf (a :: s) then t ++ splitJoinAux fuel f t (List.drop f.length (a :: s))
      else a :: splitJoinAux fuel f t s

/-- JavaScript `s.split(f).join(t)`: replace every non-overlapping
occurrence of `f` in `s` by `t`, scanning left to right.  The `f = []`
case (JavaScript would interleave `t` between characters) is never
reached by the source: every token fed to it is built from a validated,
hence non-empty, name. -/
def repl (f t s : Str) : Str :=
  if f = [] then s else splitJoinAux s.length f t s

/-- Model of `applyReplacements(str, pairs)` (src/commands/rename.js lines
60-62): `pairs.reduce((s, [from, to]) => s.split(from).join(to), str)` —
sequential substitution, each pair applied to the previous pair's output. -/
def applyReplacements (s : Str) (pairs : List (Str × Str)) : Str :=
  pairs.foldl (fun acc p => repl p.1 p.2 acc) s

/-- JavaScript `s.includes(sub)`: substring test. -/
def hasSub : Str → Str → Bool
  | [], sub => sub.isEmpty
  | a :: t, sub => if sub.isPrefixOf (a :: t) then true else hasSub t sub

/-- JavaScript `path.basename` for the slash-separated, already-normalized
paths this code produces (no trailing separator): the text after the last
`/`. -/
def basename (p : Str) : Str :=
  p.foldl (fun acc c => if c = '/' then [] else acc ++ [c]) []

/-- Suffix of a string starting at its last `.`, if any. -/
def lastDotSuffix : Str → Option Str
  | [] => none
  | c :: rest =>
      match lastDotSuffix rest with
      | some suf => some suf
      | none => if c = '.' then some (c :: rest) else none

/-- JavaScript `path.extname` on a bare file name: the suffix from the last
`.`, empty when there is no dot or the only dot starts the name. -/
def extname (s : Str) : Str :=
  match s with
  | [] => []
  | _ :: rest =>
      match lastDotSuffix rest with
      | some suf => suf
      | none => []

/-- The persisted `.rchitect.json` configuration (§3 of the spec): the six
fields as read back from JSON.  Enum fields are plain strings, exactly as
the JavaScript sees them — nothing forces them into their domains. -/
structure Config where
  framework : Str
  pattern : Str
  language : Str
  styling : Str
  withTests : Bool
  useClient : Bool

/-- Whether a configuration draws every enum field from its documented
domain (`doctor`'s `VALID_FRAMEWORKS`/`VALID_PATTERNS`/`VALID_LANGUAGES`/
`VALID_STYLINGS`). -/
def validConfig (c : Config) : Bool :=
  (["react", "nextjs"].map String.data).contains c.framework
  && (["atomic-design", "feature-based", "domain-driven", "mvc-like"].map String.data).contains c.pattern
  && (["typescript", "javascript"].map String.data).contains c.language
  && (["css", "scss"].map String.data).contains c.styling

/-- File extensions derived from a config.  Shared result shape of
`getExtensions` (src/utils/templates.js) and `getFileExtensions`
(src/mcp/server.js). -/
structure Extensions where
  compExt : Str
  scriptExt : Str
  styleExt : Str

/-- Model of `getExtensions(config)` (src/utils/templates.js lines 28-33). -/
def getExtensions (config : Config) : Extensions :=
  { compExt := if config.language = "typescript".data then "tsx".data else "jsx".data
    scriptExt := if config.language = "typescript".data then "ts".data else "js".data
    styleExt := if config.styling = "scss".data then "scss".data else "css".data }

/-- Model of `getFileExtensions(config)` (src/mcp/server.js lines 295-301),
the server's own copy of the same derivation. -/
def getFileExtensions (config : Config) : Extensions :=
  { compExt := if config.language = "typescript".data then "tsx".data else "jsx".data
    scriptExt := if config.language = "typescript".data then "ts".data else "js".data
    styleExt := if config.styling = "scss".data then "scss".data else "css".data }

/-- One structure of `src/structures/react.js` / `src/structures/nextjs.js`:
an opaque record of the path helpers every call site uses.  `componentPath`
takes the (ignored-by-tests) name and the atomic level; the other helpers
take no arguments in the source and are constants here.  The structure
files themselves are not in the repository snapshot, so nothing about the
concrete paths is assumed. -/
structure Structure where
  folders : List Str
  componentPath : Option Str → Option Str → Str
  hookPath : Str
  pagePath : Str
  servicePath : Str
  contextPath : Str
  storePath : Str
  typePath : Str
  apiPath : Str
  featurePath : Str

/-- The two pattern-indexed structure tables (`require('../structures/react')`
and `require('../structures/nextjs')`), as key lookups returning `none` for
an absent key, the way a JavaScript property access yields `undefined`. -/
structure Tables where
  react : Str → Option Structure
  nextjs : Str → Option Structure

/-- Whether a table pair maps exactly the four documented patterns to a
structure (tests/structures.test.ts exercises all four for both
frameworks; `doctor` enumerates the same four in `VALID_PATTERNS`). -/
def tablesWellFormed (t : Tables) : Prop :=
  ∀ p : Str,
    ((t.react p).isSome ↔ (["atomic-design", "feature-based", "domain-driven", "mvc-like"].map String.data).contains p)
    ∧ ((t.nextjs p).isSome ↔ (["atomic-design", "feature-based", "domain-driven", "mvc-like"].map String.data).contains p)

/-- The selection `config.framework === 'react' ? reactStructures :
nextjsStructures` followed by `structures[config.pattern]`, shared verbatim
by add.js, rename.js, remove.js and server.js. -/
def lookupStructure (t : Tables) (config : Config) : Option Structure :=
  if config.framework = "react".data then t.react config.pattern
  else t.nextjs config.pattern

/-- Result of a template function that returns `{ files, resolvedName }`:
the generated file names (the keys of the `files` object, in insertion
order) and the returned resolved name.  `componentTemplate` and
`pageTemplate` return a bare files object in the source and are modelled
as plain lists. -/
structure TemplateOut where
  files : List Str
  resolvedName : Str

/-- Model of `componentTemplate(name, config, level)` file keys
(src/utils/templates.js lines 35-72): `level` only selects the component
body, never a file name, so it is not a parameter here. -/
def componentTemplate (name : Str) (config : Config) : List Str :=
  let e := getExtensions config
  [name ++ ".".data ++ e.compExt, name ++ ".module.".data ++ e.styleExt,
    "index.".data ++ e.scriptExt]
  ++ (if config.withTests then [name ++ ".test.".data ++ e.compExt] else [])

/-- Model of `hookTemplate(name, config)` (src/utils/templates.js lines
104-139): the `use` prefix is added unless the camelCase form already
starts with `use`. -/
def hookTemplate (name : Str) (config : Config) : TemplateOut :=
  let e := getExtensions config
  let camel := toCamelCase name
  let hookName := if ("use".data).isPrefixOf camel then camel else "use".data ++ name
  { files :=
      [hookName ++ ".".data ++ e.scriptExt, "index.".data ++ e.scriptExt]
      ++ (if config.withTests then [hookName ++ ".test.".data ++ e.scriptExt] else [])
    resolvedName := hookName }

/-- Model of `pageTemplate(name, config)` file keys (src/utils/templates.js
lines 141-184). -/
def pageTemplate (name : Str) (config : Config) : List Str :=
  let e := getExtensions config
  let pageName := name ++ "Page".data
  [pageName ++ ".".data ++ e.compExt, pageName ++ ".module.".data ++ e.styleExt,
    "index.".data ++ e.scriptExt]
  ++ (if config.withTests then [pageName ++ ".test.".data ++ e.compExt] else [])

/-- Model of `serviceTemplate(name, config)` (src/utils/templates.js lines
186-213). -/
def serviceTemplate (name : Str) (config : Config) : TemplateOut :=
  let e := getExtensions config
  let serviceName := toCamelCase name ++ "Service".data
  { files :=
      [serviceName ++ ".".data ++ e.scriptExt, "index.".data ++ e.scriptExt]
      ++ (if config.withTests then [serviceName ++ ".test.".data ++ e.scriptExt] else [])
    resolvedName := serviceName }

/-- Model of `contextTemplate(name, config)` (src/utils/templates.js lines
215-312). -/
def contextTemplate (name : Str) (config : Config) : TemplateOut :=
  let e := getExtensions config
  let contextName := name ++ "Context".data
  { files :=
      [contextName ++ ".".data ++ e.compExt, "index.".data ++ e.scriptExt]
      ++ (if config.withTests then [contextName ++ ".test.".data ++ e.compExt] else [])
    resolvedName := contextName }

/-- Model of `storeTemplate(name, config)` (src/utils/templates.js lines
314-365). -/
def storeTemplate (name : Str) (config : Config) : TemplateOut :=
  let e := getExtensions config
  let storeName := "use".data ++ name ++ "Store".data
  { files :=
      [storeName ++ ".".data ++ e.scriptExt, "index.".data ++ e.scriptExt]
      ++ (if config.withTests then [storeName ++ ".test.".data ++ e.scriptExt] else [])
    resolvedName := storeName }

/-- Model of `typeTemplate(name, config)` (src/utils/templates.js lines
367-398): one file, no test file even when `withTests` is set. -/
def typeTemplate (name : Str) (config : Config) : TemplateOut :=
  let e := getExtensions config
  { files := [name ++ ".types.".data ++ e.scriptExt]
    resolvedName := name ++ ".types".data }

/-- Model of `apiTemplate(name, config)` (src/utils/templates.js lines
400-453): a single `route` file (`ext` is computed from `language`
directly in the source and coincides with `scriptExt`), no test file. -/
def apiTemplate (name : Str) (config : Config) : TemplateOut :=
  let ext := if config.language = "typescript".data then "ts".data else "js".data
  { files := ["route.".data ++ ext]
    resolvedName := toCamelCase name }

/-- Model of `featureTemplate(name, config)` (src/utils/templates.js lines
455-516): the nested view/hook/service/types/index file set, tests only
for the view and the hook. -/
def featureTemplate (name : Str) (config : Config) : TemplateOut :=
  let e := getExtensions config
  let camel := toCamelCase name
  let hookName := "use".data ++ name
  let serviceName := camel ++ "Service".data
  let viewDir := "components/".data ++ name ++ "View/".data
  let hookDir := "hooks/".data ++ hookName ++ "/".data
  let serviceDir := "services/".data ++ serviceName ++ "/".data
  { files :=
      [viewDir ++ name ++ "View.".data ++ e.compExt,
        viewDir ++ name ++ "View.module.".data ++ e.styleExt,
        viewDir ++ "index.".data ++ e.scriptExt,
        hookDir ++ hookName ++ ".".data ++ e.scriptExt,
        hookDir ++ "index.".data ++ e.scriptExt,
        serviceDir ++ serviceName ++ ".".data ++ e.scriptExt,
        serviceDir ++ "index.".data ++ e.scriptExt,
        "types.".data ++ e.scriptExt,
        "index.".data ++ e.scriptExt]
      ++ (if config.withTests then
            [viewDir ++ name ++ "View.test.".data ++ e.compExt,
              hookDir ++ hookName ++ ".test.".data ++ e.scriptExt]
          else [])
    resolvedName := name }

/-- Exception a handler can raise: the `TypeError` a JavaScript property
access on `undefined` throws (the only uncaught throw reachable in the
modelled handlers once the config file parses; a malformed JSON config
file, which would make `readJsonSync` itself throw, is outside the model
— the model receives the parsed config or `none` for an absent file). -/
inductive JsErr where
  | typeError

/-- Model of `PATTERN_DESCRIPTIONS` (src/mcp/server.js lines 18-23) as a
key lookup. -/
def PATTERN_DESCRIPTIONS (p : Str) : Option Str :=
  if p = "atomic-design".data then
    some "Atomic Design — UI components are split into atoms (primitives), molecules (atom groups), organisms (complex sections), and templates (page-level layouts). Each level has a distinct structural role.".data
  else if p = "feature-based".data then
    some "Feature-Based — Code is grouped by product features/modules. Shared UI lives in components/shared, feature-specific code lives under features/<Name>.".data
  else if p = "domain-driven".data then
    some "Domain-Driven Design (DDD) — Code mirrors business domains. Each domain is self-contained under domains/<Name>; cross-cutting concerns live under shared/.".data
  else if p = "mvc-like".data then
    some "MVC-like — Classic Model-View-Controller separation. Models define data shapes, views hold UI components and pages, controllers hold business logic, services handle data access.".data
  else none

/-- Model of `RESOURCE_DESCRIPTIONS` (src/mcp/server.js lines 25-35). -/
def RESOURCE_DESCRIPTIONS : List (Str × Str) :=
  [("component".data, "A React UI component. Lives in its own directory with a TSX/JSX file, a CSS/SCSS module, a barrel index, and optionally a test file.".data),
    ("hook".data, "A custom React hook. Name is PascalCase input; the \"use\" prefix is added automatically. Lives in hooks/use<Name>/.".data),
    ("page".data, "A page-level component. The \"Page\" suffix is added automatically. e.g. Dashboard → DashboardPage.tsx.".data),
    ("service".data, "A service module that handles data fetching or business logic. Name becomes camelCase + \"Service\". e.g. User → userService.ts.".data),
    ("context".data, "A React Context with a typed Provider and a safe consumer hook. Name becomes <Name>Context. Contexts are always \"use client\" in Next.js.".data),
    ("store".data, "A Zustand state management store. Name becomes use<Name>Store. TypeScript projects get State and Actions interfaces.".data),
    ("type".data, "A TypeScript types file. Name becomes <Name>.types.ts. Contains an interface, a type alias, and a Partial type. Placed directly in the types directory (no subdirectory).".data),
    ("api".data, "A Next.js App Router API route. Creates app/api/<name>/route.ts with typed GET and POST handlers. Next.js projects only.".data),
    ("feature".data, "A full feature scaffold with its own components/, hooks/, services/, types.ts, and index.ts. Ideal for self-contained product features.".data)]

/-- Model of `NAMING_CONVENTIONS` (src/mcp/server.js lines 37-47). -/
def NAMING_CONVENTIONS : List (Str × Str) :=
  [("component".data, "PascalCase. Directory and main file share the name. e.g. UserCard → components/.../UserCard/UserCard.tsx".data),
    ("hook".data, "PascalCase input; \"use\" prefix added automatically. e.g. Auth → useAuth. Files: useAuth.ts, index.ts".data),
    ("page".data, "PascalCase. \"Page\" suffix added to file name. e.g. Dashboard → DashboardPage.tsx".data),
    ("service".data, "PascalCase input converted to camelCase + \"Service\". e.g. User → userService.ts".data),
    ("context".data, "PascalCase. \"<Name>Context\" as file name. e.g. Auth → AuthContext.tsx".data),
    ("store".data, "PascalCase. \"use<Name>Store\" as file name. e.g. Cart → useCartStore.ts".data),
    ("type".data, "PascalCase. \"<Name>.types.ts\" as file name. e.g. User → User.types.ts".data),
    ("api".data, "PascalCase input converted to camelCase as directory. e.g. UserProfile → app/api/userProfile/route.ts".data),
    ("feature".data, "PascalCase. Directory is the name verbatim. e.g. Dashboard → features/Dashboard/".data)]

/-- Explanation object built by `handleGetProjectConfig`: one sentence per
config key. -/
structure ConfigExplanation where
  framework : Str
  pattern : Str
  language : Str
  styling : Str
  withTests : Str
  useClient : Str

/-- Value returned by `handleGetProjectConfig`: either the structured
error payload or the config plus its explanation. -/
inductive GetConfigResult where
  | err (msg : Str)
  | ok (config : Config) (explanation : ConfigExplanation)

/-- Model of `handleGetProjectConfig(cwd)` (src/mcp/server.js lines 56-86).
The on-disk state is the parsed `.rchitect.json`, or `none` when the file
is absent. -/
def handleGetProjectConfig : Option Config → Except JsErr GetConfigResult
  | none => .ok (.err ".rchitect.json not found. Run \"rchitect init\" first.".data)
  | some config =>
      .ok (.ok config
        { framework :=
            if config.framework = "nextjs".data then
              "Next.js — App Router project. API routes (app/api/) are supported.".data
            else "React — standard React project. No server-side routing.".data
          pattern := (PATTERN_DESCRIPTIONS config.pattern).getD ("Unknown pattern: ".data ++ config.pattern)
          language :=
            if config.language = "typescript".data then
              "TypeScript — files use .tsx / .ts extensions.".data
            else "JavaScript — files use .jsx / .js extensions.".data
          styling :=
            if config.styling = "scss".data then
              "SCSS — style files use .module.scss extension.".data
            else "CSS — style files use .module.css extension.".data
          withTests :=
            if config.withTests then
              "true — a .test.tsx or .test.ts file is generated alongside every resource.".data
            else "false — no test files are generated.".data
          useClient :=
            if config.framework = "nextjs".data then
              (if config.useClient then
                "true — 'use client'; directive is prepended to all generated components.".data
              else
                "false — components do not get the 'use client'; directive by default.".data)
            else "N/A — \"use client\" only applies to Next.js projects.".data })

/-- Architecture guide object built by `handleGetArchitectureGuide`. -/
structure Guide where
  pattern : Str
  framework : Str
  description : Str
  folders : List Str
  resourcePlacement : List (Str × Str)
  namingConventions : List (Str × Str)
  resourceDescriptions : List (Str × Str)
  fileExtensions : List (Str × Str)

/-- Value returned by `handleGetArchitectureGuide`. -/
inductive GuideResult where
  | err (msg : Str)
  | ok (g : Guide)

/-- Model of `handleGetArchitectureGuide(cwd)` (src/mcp/server.js lines
93-140).  Unlike the resolver below, this handler checks the structure
lookup and reports an unknown pattern as a structured error. -/
def handleGetArchitectureGuide (t : Tables) : Option Config → Except JsErr GuideResult
  | none => .ok (.err ".rchitect.json not found. Run \"rchitect init\" first.".data)
  | some config =>
      match lookupStructure t config with
      | none => .ok (.err ("Unknown pattern \"".data ++ config.pattern ++ "\" in .rchitect.json.".data))
      | some st =>
          let e := getFileExtensions config
          .ok (.ok
            { pattern := config.pattern
              framework := config.framework
              description := (PATTERN_DESCRIPTIONS config.pattern).getD config.pattern
              folders := st.folders
              resourcePlacement :=
                [("component".data,
                    if config.pattern = "atomic-design".data then
                      st.componentPath none (some "atom".data)
                        ++ " | molecules | organisms | templates (chosen by atomic level). Each component lives in its own subdirectory.".data
                    else st.componentPath none none ++ "/<Name>/".data),
                  ("hook".data, st.hookPath ++ "/use<Name>/".data),
                  ("page".data, st.pagePath ++ "/<Name>/".data),
                  ("service".data, st.servicePath ++ "/<name>Service/".data),
                  ("context".data, st.contextPath ++ "/<Name>Context/".data),
                  ("store".data, st.storePath ++ "/use<Name>Store/".data),
                  ("type".data, st.typePath ++ "/<Name>.types.".data ++ e.scriptExt ++ "  (single file — no subdirectory)".data),
                  ("api".data,
                    if config.framework = "nextjs".data then
                      st.apiPath ++ "/<name>/route.".data ++ e.scriptExt ++ "  (Next.js only)".data
                    else "Not supported — API routes require Next.js.".data),
                  ("feature".data,
                    st.featurePath ++ "/<Name>/  (contains components/, hooks/, services/, types.".data
                      ++ e.scriptExt ++ ", index.".data ++ e.scriptExt ++ ")".data)]
              namingConventions := NAMING_CONVENTIONS
              resourceDescriptions := RESOURCE_DESCRIPTIONS
              fileExtensions :=
                [("component".data, ".".data ++ e.compExt),
                  ("script".data, ".".data ++ e.scriptExt),
                  ("style".data, ".module.".data ++ e.styleExt),
                  ("test".data,
                    if config.withTests then
                      ".test.".data ++ e.compExt ++ " or .test.".data ++ e.scriptExt
                    else "disabled (withTests: false)".data)] })

/-- Value object assembled by `handleResolveResourcePath`'s success path
(src/mcp/server.js line 290): `{ type, name, directory, files,
resolvedName, note }`. -/
structure ResolvedPath where
  type : Str
  name : Str
  directory : Str
  files : List Str
  resolvedName : Str
  note : Option Str

/-- Value returned by `handleResolveResourcePath`: the structured error
payload or the resolved-path object. -/
inductive ResolveResult where
  | err (msg : Str)
  | ok (p : ResolvedPath)

/-- The `SUPPORTED` list of `handleResolveResourcePath` (src/mcp/server.js
line 149), which is also `SUPPORTED_TYPES` of src/commands/add.js line 14. -/
def SUPPORTED_QUERY_TYPES : List Str :=
  ["component", "hook", "page", "service", "context", "store", "type", "api", "feature"].map String.data

/-- Model of `handleResolveResourcePath({type, name, atomicLevel}, cwd)`
(src/mcp/server.js lines 148-291).  The handler never checks that
`structures[config.pattern]` exists: each case dereferences the structure
when it builds the directory, which on an unknown pattern is a property
access on `undefined` — modelled as `throw .typeError`.  The `api` case
returns its error payload before any dereference, exactly as the source
does. -/
def handleResolveResourcePath (t : Tables) (type name : Str) (atomicLevel : Option Str)
    (config? : Option Config) : Except JsErr ResolveResult :=
  if ¬ SUPPORTED_QUERY_TYPES.contains type then
    .ok (.err ("Unknown type \"".data ++ type
      ++ "\". Supported: component, hook, page, service, context, store, type, api, feature.".data))
  else
    match config? with
    | none => .ok (.err ".rchitect.json not found. Run \"rchitect init\" first.".data)
    | some config =>
        let st? := lookupStructure t config
        let e := getFileExtensions config
        let camel := toCamelCase name
        if type = "component".data then
          let levelNote : Option Str × Option Str :=
            if config.pattern = "atomic-design".data then
              match atomicLevel with
              | none =>
                  (some "atom".data,
                    some ("No atomicLevel provided — defaulted to \"atom\". Valid levels: atom, molecule, organism, template".data
                      ++ (if config.framework = "react".data then ", page".data else [])
                      ++ ".".data))
              | some l => (some l, none)
            else
              match atomicLevel with
              | some l =>
                  (none, some ("atomicLevel \"".data ++ l ++ "\" is ignored for pattern \"".data
                    ++ config.pattern ++ "\".".data))
              | none => (none, none)
          match st? with
          | none => .error .typeError
          | some st =>
              let basePath :=
                if config.pattern = "atomic-design".data then st.componentPath (some name) levelNote.1
                else st.componentPath (some name) none
              .ok (.ok
                { type, name
                  directory := basePath ++ "/".data ++ name
                  resolvedName := name
                  files :=
                    [name ++ ".".data ++ e.compExt, name ++ ".module.".data ++ e.styleExt,
                      "index.".data ++ e.scriptExt]
                    ++ (if config.withTests then [name ++ ".test.".data ++ e.compExt] else [])
                  note := levelNote.2 })
        else if type = "hook".data then
          let hookName := if ("use".data).isPrefixOf camel then camel else "use".data ++ name
          match st? with
          | none => .error .typeError
          | some st =>
              .ok (.ok
                { type, name
                  directory := st.hookPath ++ "/".data ++ hookName
                  resolvedName := hookName
                  files :=
                    [hookName ++ ".".data ++ e.scriptExt, "index.".data ++ e.scriptExt]
                    ++ (if config.withTests then [hookName ++ ".test.".data ++ e.scriptExt] else [])
                  note :=
                    if ("use".data).isPrefixOf camel then none
                    else some "\"use\" prefix added automatically.".data })
        else if type = "page".data then
          let pageName := name ++ "Page".data
          match st? with
          | none => .error .typeError
          | some st =>
              .ok (.ok
                { type, name
                  directory := st.pagePath ++ "/".data ++ name
                  resolvedName := pageName
                  files :=
                    [pageName ++ ".".data ++ e.compExt, pageName ++ ".module.".data ++ e.styleExt,
                      "index.".data ++ e.scriptExt]
                    ++ (if config.withTests then [pageName ++ ".test.".data ++ e.compExt] else [])
                  note := some "\"Page\" suffix added automatically.".data })
        else if type = "service".data then
          let serviceName := camel ++ "Service".data
          match st? with
          | none => .error .typeError
          | some st =>
              .ok (.ok
                { type, name
                  directory := st.servicePath ++ "/".data ++ serviceName
                  resolvedName := serviceName
                  files :=
                    [serviceName ++ ".".data ++ e.scriptExt, "index.".data ++ e.scriptExt]
                    ++ (if config.withTests then [serviceName ++ ".test.".data ++ e.scriptExt] else [])
                  note := some ("Name normalized to camelCase: \"".data ++ camel ++ "\" + \"Service\".".data) })
        else if type = "context".data then
          let contextName := name ++ "Context".data
          match st? with
          | none => .error .typeError
          | some st =>
              .ok (.ok
                { type, name
                  directory := st.contextPath ++ "/".data ++ contextName
                  resolvedName := contextName
                  files :=
                    [contextName ++ ".".data ++ e.compExt, "index.".data ++ e.scriptExt]
                    ++ (if config.withTests then [contextName ++ ".test.".data ++ e.compExt] else [])
                  note :=
                    if config.framework = "nextjs".data then
                      some "\"Context\" suffix added. Always gets 'use client'; in Next.js (contexts are always client components).".data
                    else some "\"Context\" suffix added.".data })
        else if type = "store".data then
          let storeName := "use".data ++ name ++ "Store".data
          match st? with
          | none => .error .typeError
          | some st =>
              .ok (.ok
                { type, name
                  directory := st.storePath ++ "/".data ++ storeName
                  resolvedName := storeName
                  files :=
                    [storeName ++ ".".data ++ e.scriptExt, "index.".data ++ e.scriptExt]
                    ++ (if config.withTests then [storeName ++ ".test.".data ++ e.scriptExt] else [])
                  note := some "\"use<Name>Store\" naming pattern applied.".data })
        else if type = "type".data then
          let typesName := name ++ ".types".data
          match st? with
          | none => .error .typeError
          | some st =>
              .ok (.ok
                { type, name
                  directory := st.typePath
                  resolvedName := typesName
                  files := [typesName ++ ".".data ++ e.scriptExt]
                  note := some "Type files are placed directly in the types directory — no subdirectory created.".data })
        else if type = "api".data then
          if config.framework ≠ "nextjs".data then
            .ok (.err "API routes are only supported for Next.js projects.".data)
          else
            match st? with
            | none => .error .typeError
            | some st =>
                .ok (.ok
                  { type, name
                    directory := st.apiPath ++ "/".data ++ camel
                    resolvedName := camel
                    files := ["route.".data ++ e.scriptExt]
                    note := some ("Name normalized to camelCase: \"".data ++ camel
                      ++ "\". Access at /api/".data ++ camel ++ ".".data) })
        else
          let serviceName := camel ++ "Service".data
          let hookName := "use".data ++ name
          match st? with
          | none => .error .typeError
          | some st =>
              .ok (.ok
                { type, name
                  directory := st.featurePath ++ "/".data ++ name
                  resolvedName := name
                  files :=
                    ["components/".data ++ name ++ "View/".data ++ name ++ "View.".data ++ e.compExt,
                      "components/".data ++ name ++ "View/".data ++ name ++ "View.module.".data ++ e.styleExt,
                      "components/".data ++ name ++ "View/index.".data ++ e.scriptExt,
                      "hooks/".data ++ hookName ++ "/".data ++ hookName ++ ".".data ++ e.scriptExt,
                      "hooks/".data ++ hookName ++ "/index.".data ++ e.scriptExt,
                      "services/".data ++ serviceName ++ "/".data ++ serviceName ++ ".".data ++ e.scriptExt,
                      "services/".data ++ serviceName ++ "/index.".data ++ e.scriptExt,
                      "types.".data ++ e.scriptExt,
                      "index.".data ++ e.scriptExt]
                    ++ (if config.withTests then
                          ["components/".data ++ name ++ "View/".data ++ name ++ "View.test.".data ++ e.compExt,
                            "hooks/".data ++ hookName ++ "/".data ++ hookName ++ ".test.".data ++ e.scriptExt]
                        else [])
                  note := some "Feature scaffold includes components, hooks, services, types, and a barrel index.".data })

/-- Directory, files and resolved name the add command computes for a
resource. -/
structure AddResolved where
  directory : Str
  resolvedName : Option Str
  files : List Str

/-- Model of the path/file resolution inside the add command
(src/commands/add.js, `addComponent` … `addFeature`): the target
directory each branch joins together and the template files it would
write, with the interactive prompt's atomic level passed in as `level`.
`resolvedName` is the template's resolved name where the branch
destructures one (`addComponent`/`addPage` call templates that return a
bare files object, hence `none`).  `.error` models the `process.exit`
paths; the on-disk already-exists check, which happens after this
resolution, is not part of it. -/
def addResolve (type name : Str) (level : Option Str) (config : Config) (st : Structure)
    (cwd : Str) : Except Str AddResolved :=
  if ¬ SUPPORTED_QUERY_TYPES.contains type then
    .error ("Unknown type \"".data ++ type ++ "\".".data)
  else if type = "component".data then
    let dir :=
      if config.pattern = "atomic-design".data then
        pjoin (pjoin cwd (st.componentPath (some name) level)) name
      else pjoin (pjoin cwd (st.componentPath (some name) none)) name
    .ok { directory := dir, resolvedName := none, files := componentTemplate name config }
  else if type = "hook".data then
    let tpl := hookTemplate name config
    .ok { directory := pjoin (pjoin cwd st.hookPath) tpl.resolvedName
          resolvedName := some tpl.resolvedName, files := tpl.files }
  else if type = "page".data then
    .ok { directory := pjoin (pjoin cwd st.pagePath) name
          resolvedName := none, files := pageTemplate name config }
  else if type = "service".data then
    let tpl := serviceTemplate name config
    .ok { directory := pjoin (pjoin cwd st.servicePath) tpl.resolvedName
          resolvedName := some tpl.resolvedName, files := tpl.files }
  else if type = "context".data then
    let tpl := contextTemplate name config
    .ok { directory := pjoin (pjoin cwd st.contextPath) tpl.resolvedName
          resolvedName := some tpl.resolvedName, files := tpl.files }
  else if type = "store".data then
    let tpl := storeTemplate name config
    .ok { directory := pjoin (pjoin cwd st.storePath) tpl.resolvedName
          resolvedName := some tpl.resolvedName, files := tpl.files }
  else if type = "type".data then
    let tpl := typeTemplate name config
    .ok { directory := pjoin cwd st.typePath
          resolvedName := some tpl.resolvedName, files := tpl.files }
  else if type = "api".data then
    if config.framework ≠ "nextjs".data then
      .error "API routes are only supported for Next.js projects.".data
    else
      let tpl := apiTemplate name config
      .ok { directory := pjoin (pjoin cwd st.apiPath) tpl.resolvedName
            resolvedName := some tpl.resolvedName, files := tpl.files }
  else
    let tpl := featureTemplate name config
    .ok { directory := pjoin (pjoin cwd st.featurePath) tpl.resolvedName
          resolvedName := some tpl.resolvedName, files := tpl.files }

/-- The `SUPPORTED_TYPES` list of src/commands/rename.js line 9 (the
remove command's own copy, src/commands/remove.js line 9, is identical). -/
def RENAME_SUPPORTED_TYPES : List Str :=
  ["component", "hook", "page", "service", "context", "store", "feature"].map String.data

/-- The `TEXT_EXTENSIONS` set of src/commands/rename.js line 10. -/
def TEXT_EXTENSIONS : List Str :=
  [".ts", ".tsx", ".js", ".jsx", ".css", ".scss"].map String.data

/-- Whether a file name has a text extension, the guard
`TEXT_EXTENSIONS.has(path.extname(entry))` of src/commands/rename.js. -/
def isTextFile (entry : Str) : Bool := TEXT_EXTENSIONS.contains (extname entry)

/-- Model of `resolveDir(type, name, config, structure, cwd)`
(src/commands/rename.js lines 31-43).  Note the hook case: `use` is
prefixed unconditionally, without the camelCase-already-starts-with-`use`
check the templates and the query layer apply. -/
def resolveDir (type name : Str) (st : Structure) (cwd : Str) : Option Str :=
  let camel := toCamelCase name
  if type = "component".data then some (pjoin (pjoin cwd (st.componentPath (some name) none)) name)
  else if type = "hook".data then some (pjoin (pjoin cwd st.hookPath) ("use".data ++ name))
  else if type = "page".data then some (pjoin (pjoin cwd st.pagePath) name)
  else if type = "service".data then some (pjoin (pjoin cwd st.servicePath) (camel ++ "Service".data))
  else if type = "context".data then some (pjoin (pjoin cwd st.contextPath) (name ++ "Context".data))
  else if type = "store".data then some (pjoin (pjoin cwd st.storePath) ("use".data ++ name ++ "Store".data))
  else if type = "feature".data then some (pjoin (pjoin cwd st.featurePath) name)
  else none

/-- Model of `resolveTargetDir(type, name, config, structure, cwd)`
(src/commands/remove.js lines 30-50), the remove command's duplicate of
`resolveDir` — same switch, same unconditional hook prefix. -/
def resolveTargetDir (type name : Str) (st : Structure) (cwd : Str) : Option Str :=
  let camel := toCamelCase name
  if type = "component".data then some (pjoin (pjoin cwd (st.componentPath (some name) none)) name)
  else if type = "hook".data then some (pjoin (pjoin cwd st.hookPath) ("use".data ++ name))
  else if type = "page".data then some (pjoin (pjoin cwd st.pagePath) name)
  else if type = "service".data then some (pjoin (pjoin cwd st.servicePath) (camel ++ "Service".data))
  else if type = "context".data then some (pjoin (pjoin cwd st.contextPath) (name ++ "Context".data))
  else if type = "store".data then some (pjoin (pjoin cwd st.storePath) ("use".data ++ name ++ "Store".data))
  else if type = "feature".data then some (pjoin (pjoin cwd st.featurePath) name)
  else none

/-- Model of `buildReplacementPairs(oldName, newName)`
(src/commands/rename.js lines 45-58): the eight ordered token pairs, with
every pair whose two sides coincide filtered out. -/
def buildReplacementPairs (oldName newName : Str) : List (Str × Str) :=
  let oldCamel := toCamelCase oldName
  let newCamel := toCamelCase newName
  ([("use".data ++ oldName ++ "Store".data, "use".data ++ newName ++ "Store".data),
    (oldName ++ "Context".data, newName ++ "Context".data),
    (oldName ++ "Provider".data, newName ++ "Provider".data),
    (oldName ++ "Page".data, newName ++ "Page".data),
    ("use".data ++ oldName, "use".data ++ newName),
    (oldCamel ++ "Service".data, newCamel ++ "Service".data),
    (oldCamel, newCamel),
    (oldName, newName)]).filter (fun p => p.1 ≠ p.2)

/-- A directory tree as the rename engine sees it: a file with its textual
content, or a directory with its named entries (the `readdir` listing
order).  Real directories have pairwise-distinct entry names; theorems
carry that as a hypothesis where they need it. -/
inductive FsTree where
  | file : Str → FsTree
  | dir : List (Str × FsTree) → FsTree

/-- First entry of a listing with the given name, the filesystem's lookup
of `dir/name`. -/
def findEntry (es : List (Str × FsTree)) (n : Str) : Option FsTree :=
  (es.find? (fun p => p.1 = n)).map (·.2)

/-- Errors of the modelled commands.  Each constructor models one
`process.exit(1)` path or one thrown filesystem error:
`unknownType`/`invalidName`/`configMissing`/`unknownPattern` are the
command gates, `notFound`/`conflict` the rename preconditions,
`notDirectory` an ENOTDIR from `readdir` on a file, `barrelUnreadable` an
EISDIR from `readFile` on a directory, and `renameCollision` marks the
executions in which a textual rename targets a sibling's name — there the
JavaScript behaviour (silent overwrite, or double-processing of a moved
entry) is platform-dependent, so the model stops instead of guessing;
every theorem stays in the collision-free executions, where model and
source agree. -/
inductive CmdErr where
  | unknownType
  | invalidName
  | configMissing
  | unknownPattern
  | notFound
  | conflict
  | notDirectory
  | barrelUnreadable
  | renameCollision

mutual
/-- Processing of one directory entry by `applyRenameRecursive`
(src/commands/rename.js lines 64-91): recurse into a directory before it
is renamed; rewrite a text file's content in place. -/
def renameNode (pairs : List (Str × Str)) (entry : Str) : FsTree → Except CmdErr FsTree
  | .file c => .ok (.file (if isTextFile entry then applyReplacements c pairs else c))
  | .dir sub => do
      let sub' ← applyRenameRecursive pairs [] sub
      pure (.dir sub')

/-- Model of the entry loop of `applyRenameRecursive(dir, pairs)`
(src/commands/rename.js lines 64-91): for each entry of the `readdir`
snapshot, process the node (children first for directories, content
rewrite for text files), then rename the entry when the replacement pairs
change its name.  `doneNames` accumulates the names the already-processed
siblings now carry; a rename that lands on one of them or on a
still-unprocessed sibling's name is a collision (see `CmdErr`). -/
def applyRenameRecursive (pairs : List (Str × Str)) (doneNames : List Str) :
    List (Str × FsTree) → Except CmdErr (List (Str × FsTree))
  | [] => pure []
  | (entry, node) :: rest => do
      let node' ← renameNode pairs entry node
      let newEntry := applyReplacements entry pairs
      if newEntry ≠ entry ∧ (doneNames ++ rest.map Prod.fst).contains newEntry then
        .error .renameCollision
      else do
        let rest' ← applyRenameRecursive pairs (doneNames ++ [newEntry]) rest
        pure ((newEntry, node') :: rest')
end

/-- Barrel-content rewrite of `updateBarrelForRename`
(src/commands/rename.js lines 93-107): replace `from './old'` references,
then `as old ` followed by a closing brace, by the new basename. -/
def updateBarrelForRename (content oldBasename newBasename : Str) : Str :=
  repl ("as ".data ++ oldBasename ++ " \x7d".data) ("as ".data ++ newBasename ++ " \x7d".data)
    (repl ("from './".data ++ oldBasename ++ "'".data) ("from './".data ++ newBasename ++ "'".data)
      content)

/-- Model of `renameCommand(type, oldName, newName)` (src/commands/rename.js
lines 109-147), acting on the parent directory of the resource (the
directory at `path.dirname(resolveDir …)`, which is the same for the old
and the new name): the supported-type gate, both name validations, config
and structure loading, old-exists/new-absent preconditions, the recursive
walk, the root rename and — except for features — the parent barrel
patch.  `.error` models the terminated executions (see `CmdErr`); the
partially-renamed states a mid-walk failure leaves behind are not
modelled, since no claim consults them. -/
def renameCommand (type oldName newName : Str) (config? : Option Config) (t : Tables)
    (cwd : Str) (parent : List (Str × FsTree)) : Except CmdErr (List (Str × FsTree)) :=
  if ¬ RENAME_SUPPORTED_TYPES.contains type then .error .unknownType
  else if validateName oldName = false then .error .invalidName
  else if validateName newName = false then .error .invalidName
  else
    match config? with
    | none => .error .configMissing
    | some config =>
        match lookupStructure t config with
        | none => .error .unknownPattern
        | some st =>
            match resolveDir type oldName st cwd, resolveDir type newName st cwd with
            | some oldDir, some newDir =>
                let oldBase := basename oldDir
                let newBase := basename newDir
                match findEntry parent oldBase with
                | none => .error .notFound
                | some oldNode =>
                    if (findEntry parent newBase).isSome then .error .conflict
                    else
                      let pairs := buildReplacementPairs oldName newName
                      match oldNode with
                      | .file _ => .error .notDirectory
                      | .dir sub => do
                          let sub' ← applyRenameRecursive pairs [] sub
                          let parent' := parent.map (fun p =>
                            if p.1 = oldBase then (newBase, FsTree.dir sub') else p)
                          if type = "feature".data then pure parent'
                          else
                            let barrelName := "index.".data ++ (getExtensions config).scriptExt
                            match findEntry parent' barrelName with
                            | none => pure parent'
                            | some (.dir _) => .error .barrelUnreadable
                            | some (.file c) =>
                                let c' := updateBarrelForRename c oldBase newBase
                                pure (parent'.map (fun p =>
                                  if p.1 = barrelName then (p.1, FsTree.file c') else p))
            | _, _ => .error .unknownType

/-- Model of `removeCommand(type, name)` (src/commands/remove.js lines
52-89) on the resource's parent directory: the supported-type gate, name
validation, config and structure loading, the existence check, the
interactive confirmation (`confirm`), and the recursive delete.  A
declined confirmation leaves the state unchanged. -/
def removeCommand (type name : Str) (config? : Option Config) (t : Tables) (cwd : Str)
    (confirm : Bool) (parent : List (Str × FsTree)) : Except CmdErr (List (Str × FsTree)) :=
  if ¬ RENAME_SUPPORTED_TYPES.contains type then .error .unknownType
  else if validateName name = false then .error .invalidName
  else
    match config? with
    | none => .error .configMissing
    | some config =>
        match lookupStructure t config with
        | none => .error .unknownPattern
        | some st =>
            match resolveTargetDir type name st cwd with
            | none => .error .unknownType
            | some targetDir =>
                let target := basename targetDir
                match findEntry parent target with
                | none => .error .notFound
                | some _ =>
                    if ¬ confirm then pure parent
                    else pure (parent.filter (fun p => p.1 ≠ target))

/-- Action reported by the barrel updater. -/
inductive BarrelAction where
  | created
  | updated
  | skipped
deriving DecidableEq, Repr

/-- The export line `updateBarrel` appends or creates (src/utils/barrel.js
line 16). -/
def barrelExportLine (resourceName : Str) : Str :=
  "export \x7b default as ".data ++ resourceName ++ " \x7d from './".data
    ++ resourceName ++ "';\n".data

/-- Model of `updateBarrel(parentDir, resourceName, scriptExt, cwd)`
(src/utils/barrel.js lines 14-29), acting on the content of the barrel
file `parentDir/index.<scriptExt>` (`none` when the file does not exist):
skip when an export referencing the resource is already present, append
to an existing barrel, create a missing one. -/
def updateBarrel : Option Str → Str → BarrelAction × Option Str
  | some existing, resourceName =>
      if hasSub existing ("from './".data ++ resourceName ++ "'".data) then
        (.skipped, some existing)
      else (.updated, some (existing ++ barrelExportLine resourceName))
  | none, resourceName => (.created, some (barrelExportLine resourceName))

/-- State of the barrel file after `n` calls of `updateBarrel` with the
same resource name. -/
def updateBarrelIter (n : Nat) (content? : Option Str) (resourceName : Str) : Option Str :=
  match n with
  | 0 => content?
  | k + 1 => (updateBarrel (updateBarrelIter k content? resourceName) resourceName).2

/-- Basename of the directory `resolveDir` computes — the resource's root
directory name inside its parent (`path.basename(oldDir)` in
src/commands/rename.js); `[]` for an unsupported type. -/
def resolveBase (type name : Str) (st : Structure) (cwd : Str) : Str :=
  match resolveDir type name st cwd with
  | some d => basename d
  | none => []

/-- Conditions on one directory listing's names under which the textual
rename is a faithful, invertible map: the names are pairwise distinct, the
reverse pair list undoes the forward one on each name, no name is renamed
onto another listed name, and renaming does not change whether a name
counts as a text file. -/
def namesInvertible (pAB pBA : List (Str × Str)) (ns : List Str) : Bool :=
  decide ns.Nodup
  && ns.all (fun e => applyReplacements (applyReplacements e pAB) pBA = e)
  && ns.all (fun a => ns.all (fun b => a = b || applyReplacements a pAB ≠ b))
  && ns.all (fun e => isTextFile (applyReplacements e pAB) = isTextFile e)

mutual
/-- Round-trip conditions for one entry of the tree: a text file's content
is restored by the reverse pair list, and a subdirectory satisfies
`namesInvertible` and the same conditions recursively. -/
def roundTrippableNode (pAB pBA : List (Str × Str)) (entry : Str) : FsTree → Bool
  | .file c =>
      !(isTextFile entry) || decide (applyReplacements (applyReplacements c pAB) pBA = c)
  | .dir sub => namesInvertible pAB pBA (sub.map Prod.fst) && roundTrippableEntries pAB pBA sub

/-- Round-trip conditions for every entry of a listing. -/
def roundTrippableEntries (pAB pBA : List (Str × Str)) : List (Str × FsTree) → Bool
  | [] => true
  | (e, n) :: rest => roundTrippableNode pAB pBA e n && roundTrippableEntries pAB pBA rest
end

mutual
/-- The tree `applyRenameRecursive` produces in a collision-free
execution: every entry name and every text file content rewritten by the
pair list. -/
def renamedNode (pairs : List (Str × Str)) (entry : Str) : FsTree → FsTree
  | .file c => .file (if isTextFile entry then applyReplacements c pairs else c)
  | .dir sub => .dir (renamedEntries pairs sub)

/-- Entry-list form of `renamedNode`. -/
def renamedEntries (pairs : List (Str × Str)) : List (Str × FsTree) → List (Str × FsTree)
  | [] => []
  | (e, n) :: rest => (applyReplacements e pairs, renamedNode pairs e n) :: renamedEntries pairs rest
end

/-- Example structure instance used to instantiate theorems at concrete
inputs: the react/feature-based paths observed in
tests/structures.test.ts and tests/rename.test.ts. -/
def exampleStructure : Structure :=
  { folders := ["src/components/shared", "src/features", "src/hooks", "src/services",
      "src/contexts", "src/stores", "src/types"].map String.data
    componentPath := fun _ _ => "src/components/shared".data
    hookPath := "src/hooks".data
    pagePath := "src/features".data
    servicePath := "src/services".data
    contextPath := "src/contexts".data
    storePath := "src/stores".data
    typePath := "src/types".data
    apiPath := "src/api".data
    featurePath := "src/features".data }

/-- Example Next.js structure instance (un-rooted paths, §3 of the spec). -/
def exampleNextStructure : Structure :=
  { folders := ["components/shared", "features", "hooks", "services",
      "contexts", "stores", "types", "app/api"].map String.data
    componentPath := fun _ _ => "components/shared".data
    hookPath := "hooks".data
    pagePath := "app".data
    servicePath := "services".data
    contextPath := "contexts".data
    storePath := "stores".data
    typePath := "types".data
    apiPath := "app/api".data
    featurePath := "features".data }

/-- Example tables: every documented pattern maps to the example structure
of its framework, anything else to `none` — the lookup shape of the real
`structures/react.js` / `structures/nextjs.js` objects, whose keys are
exactly the four patterns (tests/structures.test.ts). -/
def exampleTables : Tables :=
  { react := fun p =>
      if (["atomic-design", "feature-based", "domain-driven", "mvc-like"].map String.data).contains p
      then some exampleStructure else none
    nextjs := fun p =>
      if (["atomic-design", "feature-based", "domain-driven", "mvc-like"].map String.data).contains p
      then some exampleNextStructure else none }

/-- Example configuration: the base config of tests/rename.test.ts. -/
def exampleConfig : Config :=
  { framework := "react".data, pattern := "feature-based".data,
    language := "typescript".data, styling := "css".data,
    withTests := false, useClient := false }

/-- Example Next.js configuration. -/
def exampleNextConfig : Config :=
  { framework := "nextjs".data, pattern := "feature-based".data,
    language := "typescript".data, styling := "css".data,
    withTests := false, useClient := false }

/-- Concrete resource listing used to instantiate the rename round-trip
theorem: one component file whose content mentions the resource name. -/
def exampleRenameSub : List (Str × FsTree) :=
  [("Auth.tsx".data, FsTree.file "export const Auth = 1;\n".data)]

/-- Concrete parent listing used to instantiate the rename round-trip
theorem: the resource directory plus the parent barrel file. -/
def exampleRenameParent : List (Str × FsTree) :=
  [("Auth".data, FsTree.dir exampleRenameSub),
   ("index.ts".data, FsTree.file "export \x7b default as Auth \x7d from './Auth';\n".data)]

/-! Theorems.  General-purpose lemmas first, then one theorem per claim
(with its witness or counterexample where required). -/

/-- A whitespace-only name has no uppercase first character, so the regex
test fails wherever the source's separate empty/whitespace guard fires:
the guard does not change the accepted set. -/
theorem pascalCaseTest_eq_false_of_trim_nil (s : Str) (h : jsTrim s = []) :
    pascalCaseTest s = false := by
  cases s with
  | nil => rfl
  | cons c rest =>
      by_cases hc : jsIsSpace c = true
      · have hup : isUpperAZ c = false := by
          simp only [jsIsSpace, decide_eq_true_eq] at hc
          rcases hc with h1 | h1 | h1 | h1 | h1 | h1 <;> subst h1 <;> decide
        simp [pascalCaseTest, hup]
      · exfalso
        unfold jsTrim at h
        rw [List.dropWhile_cons] at h
        simp only [hc, if_false] at h
        rw [List.reverse_eq_nil_iff] at h
        have h4 := List.dropWhile_eq_nil_iff.mp h
        have h5 := h4 c (by simp)
        exact hc h5

/-- Characterization of `hasSub` by the infix relation. -/
theorem hasSub_iff (s sub : Str) : hasSub s sub = true ↔ sub <:+: s := by
  induction s with
  | nil =>
      show sub.isEmpty = true ↔ sub <:+: []
      simp [List.isEmpty_iff, List.infix_nil]
  | cons a t ih =>
      unfold hasSub
      by_cases hp : sub.isPrefixOf (a :: t)
      · rw [if_pos hp]
        simp only [true_iff]
        exact (List.isPrefixOf_iff_prefix.mp hp).isInfix
      · rw [if_neg hp]
        rw [ih]
        constructor
        · intro h; exact h.trans (List.suffix_cons a t).isInfix
        · intro h
          rcases List.infix_cons_iff.mp h with h1 | h1
          · exact absurd (List.isPrefixOf_iff_prefix.mpr h1) hp
          · exact h1

/-- The export line the barrel updater writes contains the reference
pattern the updater later checks for. -/
theorem barrelExportLine_contains (n : Str) :
    ("from './".data ++ n ++ "'".data) <:+: barrelExportLine n := by
  refine ⟨"export \x7b default as ".data ++ n ++ " \x7d ".data, ";\n".data, ?_⟩
  unfold barrelExportLine
  have e1 : (" \x7d ".data : Str) ++ "from './".data = " \x7d from './".data := by decide
  have e2 : ("'".data : Str) ++ ";\n".data = "';\n".data := by decide
  rw [← e1, ← e2]
  simp [List.append_assoc]

/-- After any call of the barrel updater the barrel file exists and
contains an export reference to the resource. -/
theorem updateBarrel_result_contains (content? : Option Str) (n : Str) :
    ∃ c, (updateBarrel content? n).2 = some c
      ∧ hasSub c ("from './".data ++ n ++ "'".data) = true := by
  have hline := barrelExportLine_contains n
  cases content? with
  | none => exact ⟨barrelExportLine n, rfl, (hasSub_iff _ _).mpr hline⟩
  | some existing =>
      by_cases h : hasSub existing ("from './".data ++ n ++ "'".data) = true
      · refine ⟨existing, ?_, h⟩
        simp only [updateBarrel]
        rw [if_pos h]
      · refine ⟨existing ++ barrelExportLine n, ?_, ?_⟩
        · simp only [updateBarrel]
          rw [if_neg h]
        · rw [hasSub_iff]
          obtain ⟨s, t2, hst⟩ := hline
          exact ⟨existing ++ s, t2, by rw [← hst]; simp [List.append_assoc]⟩

/-- C6: updateBarrel is idempotent: for every barrel state and resource
name, a second call with the same arguments reports `skipped` and leaves
the barrel content unchanged, and `k + 1` calls leave exactly the state
one call produces — repeated calls never append a second export line for
the same resource name. -/
theorem updateBarrel_idempotent (content? : Option Str) (n : Str) :
    updateBarrel (updateBarrel content? n).2 n = (BarrelAction.skipped, (updateBarrel content? n).2)
    ∧ ∀ k : Nat, updateBarrelIter (k + 1) content? n = updateBarrelIter 1 content? n := by
  obtain ⟨c, hc, hsub⟩ := updateBarrel_result_contains content? n
  have hstep : updateBarrel (updateBarrel content? n).2 n = (BarrelAction.skipped, (updateBarrel content? n).2) := by
    rw [hc]
    simp only [updateBarrel]
    rw [if_pos hsub]
  refine ⟨hstep, ?_⟩
  intro k
  induction k with
  | zero => rfl
  | succ k ih =>
      show (updateBarrel (updateBarrelIter (k + 1) content? n) n).2 = _
      rw [ih]
      show (updateBarrel (updateBarrel content? n).2 n).2 = (updateBarrel content? n).2
      rw [hstep]

/-- C8: validateName accepts exactly the strings matching
`^[A-Z][a-zA-Z0-9]*$` — the separate empty/whitespace guards reject only
strings the regex rejects anyway — and in particular rejects "button",
"123bad", "my-component", "My_Component", the empty string and a
whitespace-only string, while accepting "Button". -/
theorem validateName_pascal_exact :
    (∀ s : Str, validateName s = pascalCaseTest s)
    ∧ validateName "button".data = false
    ∧ validateName "123bad".data = false
    ∧ validateName "my-component".data = false
    ∧ validateName "My_Component".data = false
    ∧ validateName "".data = false
    ∧ validateName "   ".data = false
    ∧ validateName "Button".data = true := by
  refine ⟨?_, by decide, by decide, by decide, by decide, by decide, by decide, by decide⟩
  intro s
  unfold validateName
  by_cases h1 : s = []
  · subst h1; rfl
  · simp only [h1, if_false]
    by_cases h2 : jsTrim s = []
    · simp only [h2, if_true]
      exact (pascalCaseTest_eq_false_of_trim_nil s h2).symm
    · simp only [h2, if_false]

/-- C5: the rename engine's replacement pair list is exactly, in order,
use‹Old›Store, ‹Old›Context, ‹Old›Provider, ‹Old›Page, use‹Old›,
camelOld+Service, camelOld, Old (each mapped to its New counterpart), with
every pair whose source equals its target dropped; and `applyReplacements`
applies the pairs sequentially, each over the previous pair's output. -/
theorem buildReplacementPairs_ordered :
    (∀ oldName newName : Str,
        buildReplacementPairs oldName newName =
          ([("use".data ++ oldName ++ "Store".data, "use".data ++ newName ++ "Store".data),
            (oldName ++ "Context".data, newName ++ "Context".data),
            (oldName ++ "Provider".data, newName ++ "Provider".data),
            (oldName ++ "Page".data, newName ++ "Page".data),
            ("use".data ++ oldName, "use".data ++ newName),
            (toCamelCase oldName ++ "Service".data, toCamelCase newName ++ "Service".data),
            (toCamelCase oldName, toCamelCase newName),
            (oldName, newName)]).filter (fun p => p.1 ≠ p.2))
    ∧ (∀ (s : Str) (p : Str × Str) (rest : List (Str × Str)),
        applyReplacements s (p :: rest) = applyReplacements (repl p.1 p.2 s) rest)
    ∧ (∀ s : Str, applyReplacements s [] = s)
    ∧ buildReplacementPairs "Auth".data "Cart".data =
        [("useAuthStore".data, "useCartStore".data),
          ("AuthContext".data, "CartContext".data),
          ("AuthProvider".data, "CartProvider".data),
          ("AuthPage".data, "CartPage".data),
          ("useAuth".data, "useCart".data),
          ("authService".data, "cartService".data),
          ("auth".data, "cart".data),
          ("Auth".data, "Cart".data)] := by
  exact ⟨fun _ _ => rfl, fun _ _ _ => rfl, fun _ => rfl, by decide⟩

/-- C10: the rename and remove commands support only component, hook,
page, service, context, store and feature: invoked with type "type" or
"api" — both of which the add command and the query layer do support —
they stop at the supported-type gate with an unknown-type error, for every
name and every on-disk state (in the model an `.error` result carries no
state change: the gate fires before anything touches the tree). -/
theorem rename_remove_unknown_type_gate :
    (∀ (oldName newName : Str) (config? : Option Config) (t : Tables) (cwd : Str)
        (parent : List (Str × FsTree)),
        renameCommand "type".data oldName newName config? t cwd parent = .error .unknownType
        ∧ renameCommand "api".data oldName newName config? t cwd parent = .error .unknownType)
    ∧ (∀ (name : Str) (config? : Option Config) (t : Tables) (cwd : Str) (confirm : Bool)
        (parent : List (Str × FsTree)),
        removeCommand "type".data name config? t cwd confirm parent = .error .unknownType
        ∧ removeCommand "api".data name config? t cwd confirm parent = .error .unknownType)
    ∧ RENAME_SUPPORTED_TYPES =
        ["component", "hook", "page", "service", "context", "store", "feature"].map String.data
    ∧ "type".data ∈ SUPPORTED_QUERY_TYPES
    ∧ "api".data ∈ SUPPORTED_QUERY_TYPES := by
  exact ⟨fun _ _ _ _ _ _ => ⟨rfl, rfl⟩, fun _ _ _ _ _ _ => ⟨rfl, rfl⟩, rfl, by decide, by decide⟩

/-- C2 (code bug): the rename engine's `resolveDir` prefixes `use`
unconditionally for hooks, so for the name "UseAuth" it resolves
`hooks/useUseAuth`, while the Path Resolver (query layer) — and the add
command, which creates the hook — resolve `hooks/useAuth`: the two
directories differ, and a hook added as "UseAuth" is not found by rename. -/
theorem resolveDir_hook_double_prefix :
    resolveDir "hook".data "UseAuth".data exampleStructure "/proj".data
        = some "/proj/src/hooks/useUseAuth".data
    ∧ handleResolveResourcePath exampleTables "hook".data "UseAuth".data none (some exampleConfig)
        = .ok (.ok { type := "hook".data
                     name := "UseAuth".data
                     directory := "src/hooks/useAuth".data
                     resolvedName := "useAuth".data
                     files := ["useAuth.ts".data, "index.ts".data]
                     note := none })
    ∧ addResolve "hook".data "UseAuth".data none exampleConfig exampleStructure "/proj".data
        = .ok { directory := "/proj/src/hooks/useAuth".data
                resolvedName := some "useAuth".data
                files := ["useAuth.ts".data, "index.ts".data] }
    ∧ "/proj/src/hooks/useUseAuth".data ≠ pjoin "/proj".data "src/hooks/useAuth".data := by
  exact ⟨by decide, rfl, rfl, by decide⟩

/-- Unfolding of the query resolver at type `component`: everything before
the structure lookup reduces, leaving the match on the lookup. -/
theorem resolveQuery_component_unfold (t : Tables) (name : Str) (lvl : Option Str) (config : Config) :
    handleResolveResourcePath t "component".data name lvl (some config) =
      (match lookupStructure t config with
       | none => Except.error JsErr.typeError
       | some st =>
          let e := getFileExtensions config
          let levelNote : Option Str × Option Str :=
            if config.pattern = "atomic-design".data then
              match lvl with
              | none =>
                  (some "atom".data,
                    some ("No atomicLevel provided — defaulted to \"atom\". Valid levels: atom, molecule, organism, template".data
                      ++ (if config.framework = "react".data then ", page".data else [])
                      ++ ".".data))
              | some l => (some l, none)
            else
              match lvl with
              | some l =>
                  (none, some ("atomicLevel \"".data ++ l ++ "\" is ignored for pattern \"".data
                    ++ config.pattern ++ "\".".data))
              | none => (none, none)
          let basePath :=
            if config.pattern = "atomic-design".data then st.componentPath (some name) levelNote.1
            else st.componentPath (some name) none
          .ok (.ok
            { type := "component".data
              name := name
              directory := basePath ++ "/".data ++ name
              resolvedName := name
              files :=
                [name ++ ".".data ++ e.compExt, name ++ ".module.".data ++ e.styleExt,
                  "index.".data ++ e.scriptExt]
                ++ (if config.withTests then [name ++ ".test.".data ++ e.compExt] else [])
              note := levelNote.2 })) := rfl

/-- Unfolding of the query resolver at type `hook`. -/
theorem resolveQuery_hook_unfold (t : Tables) (name : Str) (lvl : Option Str) (config : Config) :
    handleResolveResourcePath t "hook".data name lvl (some config) =
      (match lookupStructure t config with
       | none => Except.error JsErr.typeError
       | some st =>
          let e := getFileExtensions config
          let camel := toCamelCase name
          let hookName := if ("use".data).isPrefixOf camel then camel else "use".data ++ name
          .ok (.ok
            { type := "hook".data
              name := name
              directory := st.hookPath ++ "/".data ++ hookName
              resolvedName := hookName
              files :=
                [hookName ++ ".".data ++ e.scriptExt, "index.".data ++ e.scriptExt]
                ++ (if config.withTests then [hookName ++ ".test.".data ++ e.scriptExt] else [])
              note :=
                if ("use".data).isPrefixOf camel then none
                else some "\"use\" prefix added automatically.".data })) := rfl

/-- Unfolding of the query resolver at type `page`. -/
theorem resolveQuery_page_unfold (t : Tables) (name : Str) (lvl : Option Str) (config : Config) :
    handleResolveResourcePath t "page".data name lvl (some config) =
      (match lookupStructure t config with
       | none => Except.error JsErr.typeError
       | some st =>
          let e := getFileExtensions config
          .ok (.ok
            { type := "page".data
              name := name
              directory := st.pagePath ++ "/".data ++ name
              resolvedName := name ++ "Page".data
              files :=
                [name ++ "Page".data ++ ".".data ++ e.compExt,
                  name ++ "Page".data ++ ".module.".data ++ e.styleExt,
                  "index.".data ++ e.scriptExt]
                ++ (if config.withTests then [name ++ "Page".data ++ ".test.".data ++ e.compExt] else [])
              note := some "\"Page\" suffix added automatically.".data })) := rfl

/-- Unfolding of the query resolver at type `service`. -/
theorem resolveQuery_service_unfold (t : Tables) (name : Str) (lvl : Option Str) (config : Config) :
    handleResolveResourcePath t "service".data name lvl (some config) =
      (match lookupStructure t config with
       | none => Except.error JsErr.typeError
       | some st =>
          let e := getFileExtensions config
          let camel := toCamelCase name
          .ok (.ok
            { type := "service".data
              name := name
              directory := st.servicePath ++ "/".data ++ (camel ++ "Service".data)
              resolvedName := camel ++ "Service".data
              files :=
                [camel ++ "Service".data ++ ".".data ++ e.scriptExt, "index.".data ++ e.scriptExt]
                ++ (if config.withTests then [camel ++ "Service".data ++ ".test.".data ++ e.scriptExt] else [])
              note := some ("Name normalized to camelCase: \"".data ++ camel ++ "\" + \"Service\".".data) })) := rfl

/-- Unfolding of the query resolver at type `context`. -/
theorem resolveQuery_context_unfold (t : Tables) (name : Str) (lvl : Option Str) (config : Config) :
    handleResolveResourcePath t "context".data name lvl (some config) =
      (match lookupStructure t config with
       | none => Except.error JsErr.typeError
       | some st =>
          let e := getFileExtensions config
          .ok (.ok
            { type := "context".data
              name := name
              directory := st.contextPath ++ "/".data ++ (name ++ "Context".data)
              resolvedName := name ++ "Context".data
              files :=
                [name ++ "Context".data ++ ".".data ++ e.compExt, "index.".data ++ e.scriptExt]
                ++ (if config.withTests then [name ++ "Context".data ++ ".test.".data ++ e.compExt] else [])
              note :=
                if config.framework = "nextjs".data then
                  some "\"Context\" suffix added. Always gets 'use client'; in Next.js (contexts are always client components).".data
                else some "\"Context\" suffix added.".data })) := rfl

/-- Unfolding of the query resolver at type `store`. -/
theorem resolveQuery_store_unfold (t : Tables) (name : Str) (lvl : Option Str) (config : Config) :
    handleResolveResourcePath t "store".data name lvl (some config) =
      (match lookupStructure t config with
       | none => Except.error JsErr.typeError
       | some st =>
          let e := getFileExtensions config
          .ok (.ok
            { type := "store".data
              name := name
              directory := st.storePath ++ "/".data ++ ("use".data ++ name ++ "Store".data)
              resolvedName := "use".data ++ name ++ "Store".data
              files :=
                ["use".data ++ name ++ "Store".data ++ ".".data ++ e.scriptExt, "index.".data ++ e.scriptExt]
                ++ (if config.withTests then
                      ["use".data ++ name ++ "Store".data ++ ".test.".data ++ e.scriptExt] else [])
              note := some "\"use<Name>Store\" naming pattern applied.".data })) := rfl

/-- Unfolding of the query resolver at type `type`. -/
theorem resolveQuery_type_unfold (t : Tables) (name : Str) (lvl : Option Str) (config : Config) :
    handleResolveResourcePath t "type".data name lvl (some config) =
      (match lookupStructure t config with
       | none => Except.error JsErr.typeError
       | some st =>
          let e := getFileExtensions config
          .ok (.ok
            { type := "type".data
              name := name
              directory := st.typePath
              resolvedName := name ++ ".types".data
              files := [name ++ ".types".data ++ ".".data ++ e.scriptExt]
              note := some "Type files are placed directly in the types directory — no subdirectory created.".data })) := rfl

/-- Unfolding of the query resolver at type `api`: the framework gate
comes before any structure access. -/
theorem resolveQuery_api_unfold (t : Tables) (name : Str) (lvl : Option Str) (config : Config) :
    handleResolveResourcePath t "api".data name lvl (some config) =
      (if config.framework ≠ "nextjs".data then
        .ok (.err "API routes are only supported for Next.js projects.".data)
      else
        match lookupStructure t config with
        | none => Except.error JsErr.typeError
        | some st =>
            let e := getFileExtensions config
            let camel := toCamelCase name
            .ok (.ok
              { type := "api".data
                name := name
                directory := st.apiPath ++ "/".data ++ camel
                resolvedName := camel
                files := ["route.".data ++ e.scriptExt]
                note := some ("Name normalized to camelCase: \"".data ++ camel
                  ++ "\". Access at /api/".data ++ camel ++ ".".data) })) := rfl

/-- Unfolding of the query resolver at type `feature`. -/
theorem resolveQuery_feature_unfold (t : Tables) (name : Str) (lvl : Option Str) (config : Config) :
    handleResolveResourcePath t "feature".data name lvl (some config) =
      (match lookupStructure t config with
       | none => Except.error JsErr.typeError
       | some st =>
          let e := getFileExtensions config
          let camel := toCamelCase name
          let serviceName := camel ++ "Service".data
          let hookName := "use".data ++ name
          .ok (.ok
            { type := "feature".data
              name := name
              directory := st.featurePath ++ "/".data ++ name
              resolvedName := name
              files :=
                ["components/".data ++ name ++ "View/".data ++ name ++ "View.".data ++ e.compExt,
                  "components/".data ++ name ++ "View/".data ++ name ++ "View.module.".data ++ e.styleExt,
                  "components/".data ++ name ++ "View/index.".data ++ e.scriptExt,
                  "hooks/".data ++ hookName ++ "/".data ++ hookName ++ ".".data ++ e.scriptExt,
                  "hooks/".data ++ hookName ++ "/index.".data ++ e.scriptExt,
                  "services/".data ++ serviceName ++ "/".data ++ serviceName ++ ".".data ++ e.scriptExt,
                  "services/".data ++ serviceName ++ "/index.".data ++ e.scriptExt,
                  "types.".data ++ e.scriptExt,
                  "index.".data ++ e.scriptExt]
                ++ (if config.withTests then
                      ["components/".data ++ name ++ "View/".data ++ name ++ "View.test.".data ++ e.compExt,
                        "hooks/".data ++ hookName ++ "/".data ++ hookName ++ ".test.".data ++ e.scriptExt]
                    else [])
              note := some "Feature scaffold includes components, hooks, services, types, and a barrel index.".data })) := rfl

/-- Unfolding of the architecture-guide handler on a present config,
down to the match on the structure lookup. -/
theorem architectureGuide_unfold (t : Tables) (config : Config) :
    handleGetArchitectureGuide t (some config) =
      (match lookupStructure t config with
       | none => .ok (.err ("Unknown pattern \"".data ++ config.pattern ++ "\" in .rchitect.json.".data))
       | some st =>
          let e := getFileExtensions config
          .ok (.ok
            { pattern := config.pattern
              framework := config.framework
              description := (PATTERN_DESCRIPTIONS config.pattern).getD config.pattern
              folders := st.folders
              resourcePlacement :=
                [("component".data,
                    if config.pattern = "atomic-design".data then
                      st.componentPath none (some "atom".data)
                        ++ " | molecules | organisms | templates (chosen by atomic level). Each component lives in its own subdirectory.".data
                    else st.componentPath none none ++ "/<Name>/".data),
                  ("hook".data, st.hookPath ++ "/use<Name>/".data),
                  ("page".data, st.pagePath ++ "/<Name>/".data),
                  ("service".data, st.servicePath ++ "/<name>Service/".data),
                  ("context".data, st.contextPath ++ "/<Name>Context/".data),
                  ("store".data, st.storePath ++ "/use<Name>Store/".data),
                  ("type".data, st.typePath ++ "/<Name>.types.".data ++ e.scriptExt ++ "  (single file — no subdirectory)".data),
                  ("api".data,
                    if config.framework = "nextjs".data then
                      st.apiPath ++ "/<name>/route.".data ++ e.scriptExt ++ "  (Next.js only)".data
                    else "Not supported — API routes require Next.js.".data),
                  ("feature".data,
                    st.featurePath ++ "/<Name>/  (contains components/, hooks/, services/, types.".data
                      ++ e.scriptExt ++ ", index.".data ++ e.scriptExt ++ ")".data)]
              namingConventions := NAMING_CONVENTIONS
              resourceDescriptions := RESOURCE_DESCRIPTIONS
              fileExtensions :=
                [("component".data, ".".data ++ e.compExt),
                  ("script".data, ".".data ++ e.scriptExt),
                  ("style".data, ".module.".data ++ e.styleExt),
                  ("test".data,
                    if config.withTests then
                      ".test.".data ++ e.compExt ++ " or .test.".data ++ e.scriptExt
                    else "disabled (withTests: false)".data)] })) := rfl

/-- Bridge between `List.contains` (the Boolean the source's `includes`
checks compile to) and list membership. -/
theorem strList_contains_iff (l : List Str) (a : Str) : l.contains a = true ↔ a ∈ l := by
  simp

/-- C7: hook name resolution never double-prefixes.  The template's
resolved name is `use` + name unless the camelCase of the name already
starts with `use` (independent of the config), and the query layer
resolves hook "Auth" and hook "UseAuth" to the same name `useAuth` and
the same directory under any config whose pattern resolves a structure. -/
theorem hook_resolution_no_double_prefix :
    (∀ (name : Str) (config : Config),
        (hookTemplate name config).resolvedName
          = if ("use".data).isPrefixOf (toCamelCase name) then toCamelCase name
            else "use".data ++ name)
    ∧ (∀ config : Config,
        (hookTemplate "Auth".data config).resolvedName = "useAuth".data
        ∧ (hookTemplate "UseAuth".data config).resolvedName = "useAuth".data)
    ∧ (∀ (t : Tables) (config : Config) (st : Structure),
        lookupStructure t config = some st → ∀ lvl : Option Str,
        (∃ p, handleResolveResourcePath t "hook".data "Auth".data lvl (some config) = .ok (.ok p)
            ∧ p.resolvedName = "useAuth".data ∧ p.directory = st.hookPath ++ "/".data ++ "useAuth".data)
        ∧ (∃ p, handleResolveResourcePath t "hook".data "UseAuth".data lvl (some config) = .ok (.ok p)
            ∧ p.resolvedName = "useAuth".data ∧ p.directory = st.hookPath ++ "/".data ++ "useAuth".data)) := by
  refine ⟨fun _ _ => rfl, fun _ => ⟨rfl, rfl⟩, ?_⟩
  intro t config st hst lvl
  constructor
  · rw [resolveQuery_hook_unfold, hst]
    exact ⟨_, rfl, rfl, rfl⟩
  · rw [resolveQuery_hook_unfold, hst]
    exact ⟨_, rfl, rfl, rfl⟩

/-- Witness: the hook part of C7 at the example tables and config. -/
theorem hook_resolution_no_double_prefix_witness :
    lookupStructure exampleTables exampleConfig = some exampleStructure
    ∧ (∃ p, handleResolveResourcePath exampleTables "hook".data "Auth".data none (some exampleConfig)
          = .ok (.ok p)
        ∧ p.resolvedName = "useAuth".data
        ∧ p.directory = exampleStructure.hookPath ++ "/".data ++ "useAuth".data) :=
  ⟨rfl, (( hook_resolution_no_double_prefix.2.2 exampleTables exampleConfig exampleStructure rfl none).1)⟩

/-- C9: resolving or adding an `api` resource under a react framework
fails — in the query layer with the structured payload, in the add flow
with the terminating error — with a message mentioning the Next.js
requirement and no directory; under `nextjs` both succeed with directory
`apiPath()/camelCase(name)` and the single `route` file. -/
theorem api_requires_nextjs (t : Tables) (config : Config) (st : Structure) (name : Str)
    (lvl : Option Str) (cwd : Str) (_hname : validateName name = true) :
    (config.framework = "react".data →
        handleResolveResourcePath t "api".data name lvl (some config)
            = .ok (.err "API routes are only supported for Next.js projects.".data)
        ∧ addResolve "api".data name lvl config st cwd
            = .error "API routes are only supported for Next.js projects.".data
        ∧ hasSub "API routes are only supported for Next.js projects.".data "Next.js".data = true)
    ∧ (config.framework = "nextjs".data → lookupStructure t config = some st →
        handleResolveResourcePath t "api".data name lvl (some config)
            = .ok (.ok { type := "api".data
                         name := name
                         directory := st.apiPath ++ "/".data ++ toCamelCase name
                         resolvedName := toCamelCase name
                         files := ["route.".data ++ (getFileExtensions config).scriptExt]
                         note := some ("Name normalized to camelCase: \"".data ++ toCamelCase name
                           ++ "\". Access at /api/".data ++ toCamelCase name ++ ".".data) })
        ∧ addResolve "api".data name lvl config st cwd
            = .ok { directory := pjoin (pjoin cwd st.apiPath) (toCamelCase name)
                    resolvedName := some (toCamelCase name)
                    files := ["route.".data
                      ++ (if config.language = "typescript".data then "ts".data else "js".data)] }) := by
  constructor
  · intro hf
    have hne : config.framework ≠ "nextjs".data := by rw [hf]; decide
    refine ⟨?_, ?_, by decide⟩
    · rw [resolveQuery_api_unfold, if_pos hne]
    · show (if config.framework ≠ "nextjs".data then _ else _) = _
      rw [if_pos hne]
  · intro hf hst
    have hne : ¬ config.framework ≠ "nextjs".data := by rw [hf]; simp
    constructor
    · rw [resolveQuery_api_unfold, if_neg hne, hst]
    · show (if config.framework ≠ "nextjs".data then _ else _) = _
      rw [if_neg hne]
      rfl

/-- Witness: C9 at concrete inputs — the react rejection at the example
react config and the nextjs resolution at the example Next.js config. -/
theorem api_requires_nextjs_witness :
    validateName "Users".data = true
    ∧ handleResolveResourcePath exampleTables "api".data "Users".data none (some exampleConfig)
        = .ok (.err "API routes are only supported for Next.js projects.".data)
    ∧ lookupStructure exampleTables exampleNextConfig = some exampleNextStructure
    ∧ addResolve "api".data "Users".data none exampleNextConfig exampleNextStructure "/proj".data
        = .ok { directory := pjoin (pjoin "/proj".data exampleNextStructure.apiPath) (toCamelCase "Users".data)
                resolvedName := some (toCamelCase "Users".data)
                files := ["route.".data
                  ++ (if exampleNextConfig.language = "typescript".data then "ts".data else "js".data)] } :=
  ⟨by decide,
    ((api_requires_nextjs exampleTables exampleConfig exampleStructure "Users".data none
        "/proj".data (by decide)).1 rfl).1,
    rfl,
    ((api_requires_nextjs exampleTables exampleNextConfig exampleNextStructure "Users".data none
        "/proj".data (by decide)).2 rfl rfl).2⟩

/-- C3 counterexample: with a present config whose pattern is outside the
enumerated domain (the structure tables map it to nothing, as the real
four-key table objects do), `handleResolveResourcePath` does not return a
structured `{ error }` payload — it raises the TypeError of a property
access on `undefined`. -/
theorem resolveResourcePath_unknown_pattern_raises :
    handleResolveResourcePath exampleTables "hook".data "Auth".data none
        (some { framework := "react".data
                pattern := "legacy".data
                language := "typescript".data
                styling := "css".data
                withTests := false
                useClient := false })
      = .error .typeError := rfl

/-- C3 (amended): `handleGetProjectConfig` and `handleGetArchitectureGuide`
always return a structured value and never raise (the guide reports an
unknown pattern as `{ error }`); `handleResolveResourcePath` returns a
structured value for an unknown type, for a missing config, for
api-on-non-nextjs, and whenever the config's pattern resolves a structure
— but for a present config, a supported type and a pattern outside the
enumerated domain (structure lookup yields none) it raises a TypeError
instead of returning `{ error }`, except through the api-on-non-nextjs
early return. -/
theorem mcp_handlers_error_handling :
    (∀ config? : Option Config, ∃ r, handleGetProjectConfig config? = .ok r)
    ∧ (∀ (t : Tables) (config? : Option Config), ∃ r, handleGetArchitectureGuide t config? = .ok r)
    ∧ (∀ (t : Tables) (type name : Str) (lvl : Option Str) (config? : Option Config),
        type ∉ SUPPORTED_QUERY_TYPES →
        ∃ m, handleResolveResourcePath t type name lvl config? = .ok (.err m))
    ∧ (∀ (t : Tables) (type name : Str) (lvl : Option Str),
        ∃ m, handleResolveResourcePath t type name lvl none = .ok (.err m))
    ∧ (∀ (t : Tables) (config : Config) (st : Structure) (type name : Str) (lvl : Option Str),
        lookupStructure t config = some st →
        ∃ r, handleResolveResourcePath t type name lvl (some config) = .ok r)
    ∧ (∀ (t : Tables) (config : Config) (name : Str) (lvl : Option Str),
        config.framework ≠ "nextjs".data →
        handleResolveResourcePath t "api".data name lvl (some config)
          = .ok (.err "API routes are only supported for Next.js projects.".data))
    ∧ (∀ (t : Tables) (config : Config) (type name : Str) (lvl : Option Str),
        type ∈ SUPPORTED_QUERY_TYPES → lookupStructure t config = none →
        ¬(type = "api".data ∧ config.framework ≠ "nextjs".data) →
        handleResolveResourcePath t type name lvl (some config) = .error .typeError) := by
  refine ⟨?_, ?_, ?_, ?_, ?_, ?_, ?_⟩
  · intro config?
    cases config? with
    | none => exact ⟨_, rfl⟩
    | some config => exact ⟨_, rfl⟩
  · intro t config?
    cases config? with
    | none => exact ⟨_, rfl⟩
    | some config =>
        cases hst : lookupStructure t config with
        | none =>
            rw [architectureGuide_unfold, hst]
            exact ⟨_, rfl⟩
        | some st =>
            rw [architectureGuide_unfold, hst]
            exact ⟨_, rfl⟩
  · intro t type name lvl config? hty
    have hc : SUPPORTED_QUERY_TYPES.contains type = false := by
      rw [← Bool.not_eq_true]
      intro h
      exact hty ((strList_contains_iff _ _).mp h)
    refine ⟨"Unknown type \"".data ++ type
      ++ "\". Supported: component, hook, page, service, context, store, type, api, feature.".data, ?_⟩
    show (if ¬ SUPPORTED_QUERY_TYPES.contains type then _ else _ : Except JsErr ResolveResult) = _
    rw [if_pos (by rw [hc]; decide)]
  · intro t type name lvl
    by_cases hc : SUPPORTED_QUERY_TYPES.contains type = true
    · refine ⟨".rchitect.json not found. Run \"rchitect init\" first.".data, ?_⟩
      show (if ¬ SUPPORTED_QUERY_TYPES.contains type then _ else _ : Except JsErr ResolveResult) = _
      rw [if_neg (by rw [hc]; decide)]
    · refine ⟨"Unknown type \"".data ++ type
      ++ "\". Supported: component, hook, page, service, context, store, type, api, feature.".data, ?_⟩
      show (if ¬ SUPPORTED_QUERY_TYPES.contains type then _ else _ : Except JsErr ResolveResult) = _
      rw [if_pos (by simpa using hc)]
  · intro t config st type name lvl hst
    by_cases hty : type ∈ SUPPORTED_QUERY_TYPES
    · simp only [SUPPORTED_QUERY_TYPES, List.map_cons, List.map_nil, List.mem_cons,
        List.mem_singleton, List.not_mem_nil, or_false] at hty
      rcases hty with h | h | h | h | h | h | h | h | h
      all_goals subst h
      · rw [resolveQuery_component_unfold, hst]; exact ⟨_, rfl⟩
      · rw [resolveQuery_hook_unfold, hst]; exact ⟨_, rfl⟩
      · rw [resolveQuery_page_unfold, hst]; exact ⟨_, rfl⟩
      · rw [resolveQuery_service_unfold, hst]; exact ⟨_, rfl⟩
      · rw [resolveQuery_context_unfold, hst]; exact ⟨_, rfl⟩
      · rw [resolveQuery_store_unfold, hst]; exact ⟨_, rfl⟩
      · rw [resolveQuery_type_unfold, hst]; exact ⟨_, rfl⟩
      · rw [resolveQuery_api_unfold]
        by_cases hf : config.framework ≠ "nextjs".data
        · rw [if_pos hf]; exact ⟨_, rfl⟩
        · rw [if_neg hf, hst]; exact ⟨_, rfl⟩
      · rw [resolveQuery_feature_unfold, hst]; exact ⟨_, rfl⟩
    · have hc : SUPPORTED_QUERY_TYPES.contains type = false := by
        rw [← Bool.not_eq_true]
        intro h
        exact hty ((strList_contains_iff _ _).mp h)
      refine ⟨.err ("Unknown type \"".data ++ type
        ++ "\". Supported: component, hook, page, service, context, store, type, api, feature.".data), ?_⟩
      show (if ¬ SUPPORTED_QUERY_TYPES.contains type then _ else _ : Except JsErr ResolveResult) = _
      rw [if_pos (by rw [hc]; decide)]
  · intro t config name lvl hf
    rw [resolveQuery_api_unfold, if_pos hf]
  · intro t config type name lvl hty hst hnapi
    simp only [SUPPORTED_QUERY_TYPES, List.map_cons, List.map_nil, List.mem_cons,
      List.mem_singleton, List.not_mem_nil, or_false] at hty
    rcases hty with h | h | h | h | h | h | h | h | h
    all_goals subst h
    · rw [resolveQuery_component_unfold, hst]
    · rw [resolveQuery_hook_unfold, hst]
    · rw [resolveQuery_page_unfold, hst]
    · rw [resolveQuery_service_unfold, hst]
    · rw [resolveQuery_context_unfold, hst]
    · rw [resolveQuery_store_unfold, hst]
    · rw [resolveQuery_type_unfold, hst]
    · have hfw : ¬ config.framework ≠ "nextjs".data := fun hne => hnapi ⟨rfl, hne⟩
      rw [resolveQuery_api_unfold, if_neg hfw, hst]
    · rw [resolveQuery_feature_unfold, hst]

/-- Witness: the never-throwing parts of the amended C3 at concrete
inputs, and the TypeError characterization applied at a concrete
out-of-domain pattern with type `page`. -/
theorem mcp_handlers_error_handling_witness :
    (∃ r, handleGetArchitectureGuide exampleTables (some exampleConfig) = .ok r)
    ∧ ("widget".data ∉ SUPPORTED_QUERY_TYPES)
    ∧ (∃ m, handleResolveResourcePath exampleTables "widget".data "Button".data none
          (some exampleConfig) = .ok (.err m))
    ∧ ("page".data ∈ SUPPORTED_QUERY_TYPES)
    ∧ lookupStructure exampleTables
        { framework := "react".data, pattern := "legacy".data, language := "typescript".data,
          styling := "css".data, withTests := false, useClient := false } = none
    ∧ handleResolveResourcePath exampleTables "page".data "Home".data none
        (some { framework := "react".data, pattern := "legacy".data, language := "typescript".data,
                styling := "css".data, withTests := false, useClient := false })
      = .error .typeError :=
  ⟨mcp_handlers_error_handling.2.1 exampleTables (some exampleConfig),
    by decide,
    mcp_handlers_error_handling.2.2.1 exampleTables "widget".data "Button".data none
      (some exampleConfig) (by decide),
    by decide,
    rfl,
    mcp_handlers_error_handling.2.2.2.2.2.2 exampleTables
      { framework := "react".data, pattern := "legacy".data, language := "typescript".data,
        styling := "css".data, withTests := false, useClient := false }
      "page".data "Home".data none (by decide) rfl (by decide)⟩

/-- The server's `getFileExtensions` is the same derivation as the
templates' `getExtensions`. -/
theorem getFileExtensions_eq : getFileExtensions = getExtensions := rfl

/-- Reassociation of the modelled `path.join`. -/
theorem pjoin_assoc (a b c : Str) : pjoin (pjoin a b) c = pjoin a (b ++ "/".data ++ c) := by
  simp [pjoin, List.append_assoc]

/-- C1: for every supported resource type, name, optional atomic level and
configuration whose pattern resolves a structure, the query-layer
resolution (`handleResolveResourcePath`) and the internal resolution of
the add command (path arithmetic plus the template functions) agree:
either both fail (api on a non-Next.js framework), or both succeed with
the same directory (the query layer's directory is project-relative, the
add command's carries the `cwd` prefix `path.join` adds), the same file
list, and — wherever the add flow's template returns a resolved name at
all (`componentTemplate`/`pageTemplate` return none) — the same resolved
name.  `hlvl` encodes that the add command's interactive prompt always
supplies an atomic level for atomic-design components. -/
theorem query_add_resolution_agree
    (t : Tables) (config : Config) (st : Structure) (type name : Str) (lvl : Option Str) (cwd : Str)
    (hty : type ∈ SUPPORTED_QUERY_TYPES)
    (_hname : validateName name = true)
    (_hcfg : validConfig config = true)
    (hst : lookupStructure t config = some st)
    (hlvl : config.pattern = "atomic-design".data → type = "component".data → lvl.isSome) :
    (∃ msg msg', handleResolveResourcePath t type name lvl (some config) = .ok (.err msg)
        ∧ addResolve type name lvl config st cwd = .error msg')
    ∨ (∃ p q, handleResolveResourcePath t type name lvl (some config) = .ok (.ok p)
        ∧ addResolve type name lvl config st cwd = .ok q
        ∧ q.directory = pjoin cwd p.directory
        ∧ q.files = p.files
        ∧ ∀ r, q.resolvedName = some r → r = p.resolvedName) := by
  simp only [SUPPORTED_QUERY_TYPES, List.map_cons, List.map_nil, List.mem_cons,
    List.mem_singleton, List.not_mem_nil, or_false] at hty
  rcases hty with h | h | h | h | h | h | h | h | h
  all_goals subst h
  · -- component
    by_cases hpat : config.pattern = "atomic-design".data
    · obtain ⟨l, hl⟩ := Option.isSome_iff_exists.mp (hlvl hpat rfl)
      subst hl
      rw [resolveQuery_component_unfold, hst]
      refine Or.inr ⟨_, _, rfl, rfl, ?_, rfl, fun r hr => nomatch hr⟩
      simp [hpat, pjoin, List.append_assoc]
    · rw [resolveQuery_component_unfold, hst]
      refine Or.inr ⟨_, _, rfl, rfl, ?_, rfl, fun r hr => nomatch hr⟩
      simp [hpat, pjoin, List.append_assoc]
  · -- hook
    rw [resolveQuery_hook_unfold, hst]
    refine Or.inr ⟨_, _, rfl, rfl, ?_, rfl, fun r hr => (Option.some.inj hr).symm⟩
    rw [pjoin_assoc]
    rfl
  · -- page
    rw [resolveQuery_page_unfold, hst]
    refine Or.inr ⟨_, _, rfl, rfl, ?_, rfl, fun r hr => nomatch hr⟩
    rw [pjoin_assoc]
  · -- service
    rw [resolveQuery_service_unfold, hst]
    refine Or.inr ⟨_, _, rfl, rfl, ?_, rfl, fun r hr => (Option.some.inj hr).symm⟩
    rw [pjoin_assoc]
    rfl
  · -- context
    rw [resolveQuery_context_unfold, hst]
    refine Or.inr ⟨_, _, rfl, rfl, ?_, rfl, fun r hr => (Option.some.inj hr).symm⟩
    rw [pjoin_assoc]
    rfl
  · -- store
    rw [resolveQuery_store_unfold, hst]
    refine Or.inr ⟨_, _, rfl, rfl, ?_, rfl, fun r hr => (Option.some.inj hr).symm⟩
    rw [pjoin_assoc]
    rfl
  · -- type
    rw [resolveQuery_type_unfold, hst]
    refine Or.inr ⟨_, _, rfl, rfl, rfl, ?_, fun r hr => (Option.some.inj hr).symm⟩
    show (typeTemplate name config).files = _
    simp [typeTemplate, getFileExtensions_eq, List.append_assoc]
  · -- api
    by_cases hfw : config.framework ≠ "nextjs".data
    · rw [resolveQuery_api_unfold, if_pos hfw]
      have hadd : addResolve "api".data name lvl config st cwd
          = .error "API routes are only supported for Next.js projects.".data := by
        show (if config.framework ≠ "nextjs".data then _ else _) = _
        rw [if_pos hfw]
      exact Or.inl ⟨_, _, rfl, hadd⟩
    · rw [resolveQuery_api_unfold, if_neg hfw, hst]
      have hadd : addResolve "api".data name lvl config st cwd
          = .ok { directory := pjoin (pjoin cwd st.apiPath) (apiTemplate name config).resolvedName
                  resolvedName := some (apiTemplate name config).resolvedName
                  files := (apiTemplate name config).files } := by
        show (if config.framework ≠ "nextjs".data then _ else _) = _
        rw [if_neg hfw]
      refine Or.inr ⟨_, _, rfl, hadd, ?_, rfl, fun r hr => (Option.some.inj hr).symm⟩
      rw [pjoin_assoc]
      rfl
  · -- feature
    rw [resolveQuery_feature_unfold, hst]
    refine Or.inr ⟨_, _, rfl, rfl, ?_, ?_, fun r hr => (Option.some.inj hr).symm⟩
    · rw [pjoin_assoc]
      rfl
    · show (featureTemplate name config).files = _
      simp [featureTemplate, getFileExtensions_eq, List.append_assoc]

/-- Witness: C1 applied to the hook type at the example tables, config,
structure and a concrete name. -/
theorem query_add_resolution_agree_witness :
    ("hook".data ∈ SUPPORTED_QUERY_TYPES)
    ∧ validateName "Auth".data = true
    ∧ validConfig exampleConfig = true
    ∧ lookupStructure exampleTables exampleConfig = some exampleStructure
    ∧ ((∃ msg msg',
          handleResolveResourcePath exampleTables "hook".data "Auth".data none (some exampleConfig)
              = .ok (.err msg)
          ∧ addResolve "hook".data "Auth".data none exampleConfig exampleStructure "/proj".data
              = .error msg')
        ∨ (∃ p q,
          handleResolveResourcePath exampleTables "hook".data "Auth".data none (some exampleConfig)
              = .ok (.ok p)
          ∧ addResolve "hook".data "Auth".data none exampleConfig exampleStructure "/proj".data
              = .ok q
          ∧ q.directory = pjoin "/proj".data p.directory
          ∧ q.files = p.files
          ∧ ∀ r, q.resolvedName = some r → r = p.resolvedName)) :=
  ⟨by decide, by decide, by decide, rfl,
    query_add_resolution_agree exampleTables exampleConfig exampleStructure "hook".data
      "Auth".data none "/proj".data (by decide) (by decide) (by decide) rfl
      (fun _ h => nomatch h)⟩

/-! Lemmas for the rename engine's round trip (C4). -/

/-- Characterization of `namesInvertible` as a conjunction of properties. -/
theorem namesInvertible_iff {pAB pBA : List (Str × Str)} {ns : List Str} :
    namesInvertible pAB pBA ns = true ↔
      ns.Nodup
      ∧ (∀ e ∈ ns, applyReplacements (applyReplacements e pAB) pBA = e)
      ∧ (∀ a ∈ ns, ∀ b ∈ ns, a = b ∨ applyReplacements a pAB ≠ b)
      ∧ (∀ e ∈ ns, isTextFile (applyReplacements e pAB) = isTextFile e) := by
  simp only [namesInvertible, Bool.and_eq_true, decide_eq_true_eq, List.all_eq_true,
    Bool.or_eq_true]
  tauto

/-- First component of `namesInvertible`: the names are distinct. -/
theorem namesInvertible_nodup {pAB pBA : List (Str × Str)} {ns : List Str}
    (h : namesInvertible pAB pBA ns = true) : ns.Nodup :=
  (namesInvertible_iff.mp h).1

/-- Second component of `namesInvertible`: the reverse pair list undoes
the forward one on every listed name. -/
theorem namesInvertible_inv {pAB pBA : List (Str × Str)} {ns : List Str}
    (h : namesInvertible pAB pBA ns = true) :
    ∀ e ∈ ns, applyReplacements (applyReplacements e pAB) pBA = e :=
  (namesInvertible_iff.mp h).2.1

/-- Third component of `namesInvertible`: no listed name is renamed onto a
listed name other than itself. -/
theorem namesInvertible_fix {pAB pBA : List (Str × Str)} {ns : List Str}
    (h : namesInvertible pAB pBA ns = true) :
    ∀ a ∈ ns, ∀ b ∈ ns, applyReplacements a pAB = b → a = b := by
  intro a ha b hb hab
  rcases (namesInvertible_iff.mp h).2.2.1 a ha b hb with h1 | h1
  · exact h1
  · exact absurd hab h1

/-- Fourth component of `namesInvertible`: renaming preserves the text
classification of every listed name. -/
theorem namesInvertible_text {pAB pBA : List (Str × Str)} {ns : List Str}
    (h : namesInvertible pAB pBA ns = true) :
    ∀ e ∈ ns, isTextFile (applyReplacements e pAB) = isTextFile e :=
  (namesInvertible_iff.mp h).2.2.2

/-- `namesInvertible` restricts to the tail of a listing. -/
theorem namesInvertible_tail {pAB pBA : List (Str × Str)} {x : Str} {ns : List Str}
    (h : namesInvertible pAB pBA (x :: ns) = true) : namesInvertible pAB pBA ns = true := by
  rw [namesInvertible_iff] at h ⊢
  obtain ⟨h1, h2, h3, h4⟩ := h
  exact ⟨(List.nodup_cons.mp h1).2,
    fun e he => h2 e (List.mem_cons_of_mem x he),
    fun a ha b hb => h3 a (List.mem_cons_of_mem x ha) b (List.mem_cons_of_mem x hb),
    fun e he => h4 e (List.mem_cons_of_mem x he)⟩

/-- Names of the renamed entries are the renamed names. -/
theorem renamedEntries_map_fst (pairs : List (Str × Str)) (es : List (Str × FsTree)) :
    (renamedEntries pairs es).map Prod.fst = es.map (fun p => applyReplacements p.1 pairs) := by
  induction es with
  | nil => rfl
  | cons p rest ih =>
      cases p
      simp [renamedEntries, ih]

/-- `findEntry` misses exactly the names that are not listed. -/
theorem findEntry_eq_none {es : List (Str × FsTree)} {n : Str} :
    findEntry es n = none ↔ n ∉ es.map Prod.fst := by
  simp only [findEntry, Option.map_eq_none', List.find?_eq_none, decide_eq_true_eq]
  constructor
  · intro h hmem
    obtain ⟨p, hp, hpe⟩ := List.mem_map.mp hmem
    exact h p hp hpe
  · intro h p hp hpe
    exact h (List.mem_map.mpr ⟨p, hp, hpe⟩)

/-- A `findEntry` hit is a listed entry. -/
theorem findEntry_some_mem {es : List (Str × FsTree)} {n : Str} {v : FsTree}
    (h : findEntry es n = some v) : (n, v) ∈ es := by
  simp only [findEntry, Option.map_eq_some'] at h
  obtain ⟨p, hp, hpv⟩ := h
  have hmem := List.mem_of_find?_eq_some hp
  have hname : p.1 = n := by simpa using List.find?_some hp
  cases p
  cases hname
  cases hpv
  exact hmem

/-- With distinct names, every listed entry is what `findEntry` returns
for its name. -/
theorem findEntry_of_mem_nodup {es : List (Str × FsTree)}
    (hnd : (es.map Prod.fst).Nodup) {p : Str × FsTree} (hp : p ∈ es) :
    findEntry es p.1 = some p.2 := by
  induction es with
  | nil => cases hp
  | cons q rest ih =>
      rw [List.map_cons, List.nodup_cons] at hnd
      rcases List.mem_cons.mp hp with h | h
      · subst h
        simp only [findEntry]
        rw [List.find?_cons_of_pos _ (by simp)]
        rfl
      · have hq : ¬ (q.1 = p.1) := by
          intro he
          exact hnd.1 (he ▸ List.mem_map.mpr ⟨p, h, rfl⟩)
        simp only [findEntry]
        rw [List.find?_cons_of_neg _ (by simpa using hq)]
        exact ih hnd.2 h

/-- After the root rename, the new basename resolves to the new node. -/
theorem findEntry_rename_new {es : List (Str × FsTree)} {o n : Str} {d : FsTree}
    (hno : n ∉ es.map Prod.fst) (ho : o ∈ es.map Prod.fst) :
    findEntry (es.map (fun p => if p.1 = o then (n, d) else p)) n = some d := by
  induction es with
  | nil => cases ho
  | cons q rest ih =>
      rw [List.map_cons, List.mem_cons] at hno
      push_neg at hno
      by_cases hq : q.1 = o
      · simp only [List.map_cons, if_pos hq, findEntry]
        rw [List.find?_cons_of_pos _ (by simp)]
        rfl
      · simp only [List.map_cons, if_neg hq, findEntry]
        rw [List.find?_cons_of_neg _ (by simpa using fun he : q.1 = n => hno.1 he.symm)]
        have ho' : o ∈ rest.map Prod.fst := by
          rw [List.map_cons] at ho
          rcases List.mem_cons.mp ho with h | h
          · exact absurd h.symm hq
          · exact h
        exact ih hno.2 ho'

/-- After the root rename, the old basename resolves to nothing. -/
theorem findEntry_rename_old {es : List (Str × FsTree)} {o n : Str} {d : FsTree}
    (hon : o ≠ n) :
    findEntry (es.map (fun p => if p.1 = o then (n, d) else p)) o = none := by
  rw [findEntry_eq_none]
  intro h
  rcases List.mem_map.mp h with ⟨p, hp, hpe⟩
  rcases List.mem_map.mp hp with ⟨q, _, hqe⟩
  subst hqe
  by_cases hqo : q.1 = o
  · rw [if_pos hqo] at hpe
    exact hon hpe.symm
  · rw [if_neg hqo] at hpe
    exact hqo hpe

/-- The root rename leaves every other name's entry alone. -/
theorem findEntry_rename_preserve {es : List (Str × FsTree)} {o n x : Str} {d : FsTree}
    (hxo : x ≠ o) (hxn : x ≠ n) :
    findEntry (es.map (fun p => if p.1 = o then (n, d) else p)) x = findEntry es x := by
  induction es with
  | nil => rfl
  | cons q rest ih =>
      by_cases hq : q.1 = o
      · simp only [List.map_cons, if_pos hq, findEntry]
        rw [List.find?_cons_of_neg _ (by simpa using fun he : n = x => hxn he.symm),
          List.find?_cons_of_neg _ (by rw [hq]; simpa using fun he : o = x => hxo he.symm)]
        exact ih
      · simp only [List.map_cons, if_neg hq, findEntry]
        by_cases hqx : q.1 = x
        · rw [List.find?_cons_of_pos _ (by simpa using hqx),
            List.find?_cons_of_pos _ (by simpa using hqx)]
        · rw [List.find?_cons_of_neg _ (by simpa using hqx),
            List.find?_cons_of_neg _ (by simpa using hqx)]
          exact ih

/-- The barrel-content update leaves every other name's entry alone. -/
theorem findEntry_set_other {es : List (Str × FsTree)} {b x : Str} {c : Str}
    (hxb : x ≠ b) :
    findEntry (es.map (fun p => if p.1 = b then (p.1, FsTree.file c) else p)) x
      = findEntry es x := by
  induction es with
  | nil => rfl
  | cons q rest ih =>
      by_cases hq : q.1 = b
      · simp only [List.map_cons, if_pos hq, findEntry]
        rw [List.find?_cons_of_neg _ (by rw [hq]; simpa using fun he : b = x => hxb he.symm),
          List.find?_cons_of_neg _ (by rw [hq]; simpa using fun he : b = x => hxb he.symm)]
        exact ih
      · simp only [List.map_cons, if_neg hq, findEntry]
        by_cases hqx : q.1 = x
        · rw [List.find?_cons_of_pos _ (by simpa using hqx),
            List.find?_cons_of_pos _ (by simpa using hqx)]
        · rw [List.find?_cons_of_neg _ (by simpa using hqx),
            List.find?_cons_of_neg _ (by simpa using hqx)]
          exact ih

/-- The barrel-content update replaces the barrel entry's content. -/
theorem findEntry_set_self {es : List (Str × FsTree)} {b : Str} {c : Str} {v : FsTree}
    (h : findEntry es b = some v) :
    findEntry (es.map (fun p => if p.1 = b then (p.1, FsTree.file c) else p)) b
      = some (FsTree.file c) := by
  induction es with
  | nil => cases h
  | cons q rest ih =>
      by_cases hq : q.1 = b
      · simp only [List.map_cons, if_pos hq, findEntry]
        rw [List.find?_cons_of_pos _ (by rw [hq]; simp)]
        rfl
      · simp only [findEntry] at h
        rw [List.find?_cons_of_neg _ (by simpa using hq)] at h
        simp only [List.map_cons, if_neg hq, findEntry]
        rw [List.find?_cons_of_neg _ (by simpa using hq)]
        exact ih h

/-- `Except` bind on a success, reduced. -/
theorem exceptBind_ok {α β : Type} (a : α) (f : α → Except CmdErr β) :
    (Except.ok a : Except CmdErr α) >>= f = f a := rfl

/-- `Except` pure is `ok`. -/
theorem exceptPure_eq {α : Type} (a : α) : (pure a : Except CmdErr α) = Except.ok a := rfl

mutual

/-- In a round-trippable tree the walk of `renameNode` succeeds and
produces exactly the renamed tree `renamedNode`. -/
theorem renameNode_rt_eq (pAB pBA : List (Str × Str)) (entry : Str) (t : FsTree)
    (hrt : roundTrippableNode pAB pBA entry t = true) :
    renameNode pAB entry t = .ok (renamedNode pAB entry t) := by
  cases t with
  | file c => rfl
  | dir sub =>
      simp only [roundTrippableNode, Bool.and_eq_true] at hrt
      have h := applyRenameRecursive_rt_eq pAB pBA [] [] sub rfl (by simpa using hrt.1) hrt.2
      simp only [renameNode, renamedNode, h, exceptBind_ok]
      rfl

/-- In a round-trippable listing whose names (together with the names the
processed siblings started from) satisfy `namesInvertible`, the entry loop
of `applyRenameRecursive` is collision-free and produces exactly
`renamedEntries`. -/
theorem applyRenameRecursive_rt_eq (pAB pBA : List (Str × Str)) (preNames done : List Str)
    (es : List (Str × FsTree))
    (hdone : done = preNames.map (fun e => applyReplacements e pAB))
    (hinv : namesInvertible pAB pBA (preNames ++ es.map Prod.fst) = true)
    (hrt : roundTrippableEntries pAB pBA es = true) :
    applyRenameRecursive pAB done es = .ok (renamedEntries pAB es) := by
  cases es with
  | nil => rfl
  | cons p rest =>
      obtain ⟨entry, node⟩ := p
      simp only [roundTrippableEntries, Bool.and_eq_true] at hrt
      simp only [List.map_cons] at hinv
      have hnode := renameNode_rt_eq pAB pBA entry node hrt.1
      have hentry : entry ∈ preNames ++ entry :: rest.map Prod.fst :=
        List.mem_append_right _ (List.mem_cons_self _ _)
      have hinv' : namesInvertible pAB pBA ((preNames ++ [entry]) ++ rest.map Prod.fst) = true := by
        rw [List.append_assoc, List.singleton_append]
        exact hinv
      have hrec := applyRenameRecursive_rt_eq pAB pBA (preNames ++ [entry])
        (done ++ [applyReplacements entry pAB]) rest
        (by rw [hdone, List.map_append]; rfl) hinv' hrt.2
      have hcol : ¬ (applyReplacements entry pAB ≠ entry
          ∧ (done ++ rest.map Prod.fst).contains (applyReplacements entry pAB) = true) := by
        rintro ⟨hne, hmem⟩
        rw [strList_contains_iff] at hmem
        rcases List.mem_append.mp hmem with hm | hm
        · rw [hdone] at hm
          rcases List.mem_map.mp hm with ⟨a, ha, hae⟩
          have hainv := namesInvertible_inv hinv a (List.mem_append_left _ ha)
          have heinv := namesInvertible_inv hinv entry hentry
          rw [hae] at hainv
          have hae2 : a = entry := hainv.symm.trans heinv
          have hnd := namesInvertible_nodup hinv
          have hdisj := (List.nodup_append.mp hnd).2.2
          exact hdisj ha (by rw [hae2]; exact List.mem_cons_self _ _)
        · have hb : applyReplacements entry pAB ∈ preNames ++ entry :: rest.map Prod.fst :=
            List.mem_append_right _ (List.mem_cons_of_mem _ hm)
          have hfx := namesInvertible_fix hinv entry hentry _ hb rfl
          exact hne hfx.symm
      simp only [applyRenameRecursive, renamedEntries, hnode, exceptBind_ok]
      rw [if_neg hcol]
      simp only [hrec, exceptBind_ok]
      rfl

end

mutual

/-- Walking the renamed tree with the reverse pair list restores the
original tree: node level. -/
theorem renameNode_back_eq (pAB pBA : List (Str × Str)) (entry : Str) (t : FsTree)
    (htext : isTextFile (applyReplacements entry pAB) = isTextFile entry)
    (hrt : roundTrippableNode pAB pBA entry t = true) :
    renameNode pBA (applyReplacements entry pAB) (renamedNode pAB entry t) = .ok t := by
  cases t with
  | file c =>
      simp only [roundTrippableNode] at hrt
      simp only [renamedNode, renameNode, htext]
      cases h : isTextFile entry with
      | true =>
          rw [h] at hrt
          simp only [Bool.not_true, Bool.false_or, decide_eq_true_eq] at hrt
          simp [h, hrt]
      | false => simp [h]
  | dir sub =>
      simp only [roundTrippableNode, Bool.and_eq_true] at hrt
      have h := applyRenameRecursive_back_eq pAB pBA [] sub (by simpa using hrt.1) hrt.2
      simp only [renamedNode, renameNode, h, exceptBind_ok]
      rfl

/-- Walking the renamed listing with the reverse pair list restores the
original listing, with the original names of the already-processed
siblings as the accumulator. -/
theorem applyRenameRecursive_back_eq (pAB pBA : List (Str × Str)) (preNames : List Str)
    (es : List (Str × FsTree))
    (hinv : namesInvertible pAB pBA (preNames ++ es.map Prod.fst) = true)
    (hrt : roundTrippableEntries pAB pBA es = true) :
    applyRenameRecursive pBA preNames (renamedEntries pAB es) = .ok es := by
  cases es with
  | nil => rfl
  | cons p rest =>
      obtain ⟨entry, node⟩ := p
      simp only [roundTrippableEntries, Bool.and_eq_true] at hrt
      simp only [List.map_cons] at hinv
      have hentry : entry ∈ preNames ++ entry :: rest.map Prod.fst :=
        List.mem_append_right _ (List.mem_cons_self _ _)
      have htext := namesInvertible_text hinv entry hentry
      have hback := namesInvertible_inv hinv entry hentry
      have hnode := renameNode_back_eq pAB pBA entry node htext hrt.1
      have hinv' : namesInvertible pAB pBA ((preNames ++ [entry]) ++ rest.map Prod.fst) = true := by
        rw [List.append_assoc, List.singleton_append]
        exact hinv
      have hrec := applyRenameRecursive_back_eq pAB pBA (preNames ++ [entry]) rest hinv' hrt.2
      have hcol : ¬ (entry ≠ applyReplacements entry pAB
          ∧ (preNames ++ (renamedEntries pAB rest).map Prod.fst).contains entry = true) := by
        rintro ⟨hne, hmem⟩
        rw [strList_contains_iff] at hmem
        rcases List.mem_append.mp hmem with hm | hm
        · have hnd := namesInvertible_nodup hinv
          have hdisj := (List.nodup_append.mp hnd).2.2
          exact hdisj hm (List.mem_cons_self _ _)
        · rw [renamedEntries_map_fst] at hm
          rcases List.mem_map.mp hm with ⟨q, hq, hqe⟩
          have hqmem : q.1 ∈ preNames ++ entry :: rest.map Prod.fst :=
            List.mem_append_right _ (List.mem_cons_of_mem _ (List.mem_map.mpr ⟨q, hq, rfl⟩))
          have hfx := namesInvertible_fix hinv q.1 hqmem entry hentry hqe
          rw [hfx] at hqe
          exact hne hqe.symm
      simp only [renamedEntries, applyRenameRecursive, hnode, exceptBind_ok, hback]
      rw [if_neg hcol]
      simp only [hrec, exceptBind_ok]
      rfl

end

/-- Symbolic execution of `renameCommand` past all its gates: with the
type supported, both names valid, the structure resolved, the old
directory found, the new name free and a successful walk, the command
performs the root rename followed by the barrel patch (skipped for
features). -/
theorem renameCommand_eq_of (type A B : Str) (config : Config) (t : Tables) (cwd : Str)
    (parent : List (Str × FsTree)) (st : Structure) (dA dB : Str)
    (sub sub' : List (Str × FsTree))
    (hsup : RENAME_SUPPORTED_TYPES.contains type = true)
    (hvA : validateName A = true) (hvB : validateName B = true)
    (hst : lookupStructure t config = some st)
    (hdA : resolveDir type A st cwd = some dA)
    (hdB : resolveDir type B st cwd = some dB)
    (hfind : findEntry parent (basename dA) = some (FsTree.dir sub))
    (hconf : findEntry parent (basename dB) = none)
    (hwalk : applyRenameRecursive (buildReplacementPairs A B) [] sub = .ok sub') :
    renameCommand type A B (some config) t cwd parent =
      (if type = "feature".data then
        .ok (parent.map (fun p =>
          if p.1 = basename dA then (basename dB, FsTree.dir sub') else p))
       else
         match findEntry (parent.map (fun p =>
             if p.1 = basename dA then (basename dB, FsTree.dir sub') else p))
             ("index.".data ++ (getExtensions config).scriptExt) with
         | none => .ok (parent.map (fun p =>
             if p.1 = basename dA then (basename dB, FsTree.dir sub') else p))
         | some (.dir _) => .error .barrelUnreadable
         | some (.file c) => .ok ((parent.map (fun p =>
             if p.1 = basename dA then (basename dB, FsTree.dir sub') else p)).map (fun p =>
             if p.1 = "index.".data ++ (getExtensions config).scriptExt
             then (p.1, FsTree.file (updateBarrelForRename c (basename dA) (basename dB))) else p))) := by
  simp only [renameCommand, hsup, hvA, hvB, hst, hdA, hdB, hfind, hconf, hwalk,
    exceptBind_ok, exceptPure_eq, Option.isSome_none, not_true, Bool.true_eq_false,
    Bool.false_eq_true, if_false, ite_false, not_false_iff, if_true, ite_true]

/-- A map that fixes every element of a list leaves it unchanged. -/
theorem map_eq_self_of_pointwise {α : Type} (l : List α) (f : α → α)
    (h : ∀ a ∈ l, f a = a) : l.map f = l := by
  induction l with
  | nil => rfl
  | cons x xs ih =>
      simp only [List.map_cons, h x (List.mem_cons_self _ _),
        ih (fun a ha => h a (List.mem_cons_of_mem _ ha))]

/-- `resolveDir` succeeds on every type the rename command supports. -/
theorem resolveDir_isSome (type name : Str) (st : Structure) (cwd : Str)
    (hsup : RENAME_SUPPORTED_TYPES.contains type = true) :
    (resolveDir type name st cwd).isSome = true := by
  rw [strList_contains_iff] at hsup
  simp only [RENAME_SUPPORTED_TYPES, List.map_cons, List.map_nil, List.mem_cons,
    List.not_mem_nil, or_false] at hsup
  rcases hsup with h | h | h | h | h | h | h
  all_goals subst h
  all_goals rfl

/-- Renaming the root entry and renaming it back restores the listing. -/
theorem roundtrip_root_map (parent : List (Str × FsTree)) (o n : Str)
    (s s' : List (Str × FsTree))
    (hnd : (parent.map Prod.fst).Nodup)
    (hold : findEntry parent o = some (FsTree.dir s))
    (hnew : n ∉ parent.map Prod.fst) :
    (parent.map (fun p => if p.1 = o then (n, FsTree.dir s') else p)).map
      (fun p => if p.1 = n then (o, FsTree.dir s) else p) = parent := by
  rw [List.map_map]
  refine map_eq_self_of_pointwise parent _ ?_
  intro p hp
  obtain ⟨pn, pv⟩ := p
  by_cases h1 : pn = o
  · subst h1
    have hu := findEntry_of_mem_nodup hnd hp
    rw [hold] at hu
    have hv : pv = FsTree.dir s := (Option.some.inj hu).symm
    subst hv
    simp
  · have h2 : pn ≠ n := by
      intro he
      exact hnew (he ▸ List.mem_map.mpr ⟨(pn, pv), hp, rfl⟩)
    simp [h1, h2]

/-- Root rename, barrel patch, reverse root rename and reverse barrel
patch compose to the identity when the reverse barrel rewrite undoes the
forward one. -/
theorem roundtrip_full_map (parent : List (Str × FsTree)) (o n bn : Str)
    (s s' : List (Str × FsTree)) (c : Str)
    (hnd : (parent.map Prod.fst).Nodup)
    (hold : findEntry parent o = some (FsTree.dir s))
    (hnew : n ∉ parent.map Prod.fst)
    (hbfile : findEntry parent bn = some (FsTree.file c))
    (hbo : o ≠ bn) (hbn : n ≠ bn)
    (hrb : updateBarrelForRename (updateBarrelForRename c o n) n o = c) :
    ((((parent.map (fun p => if p.1 = o then (n, FsTree.dir s') else p)).map
        (fun p => if p.1 = bn then (p.1, FsTree.file (updateBarrelForRename c o n)) else p)).map
        (fun p => if p.1 = n then (o, FsTree.dir s) else p)).map
        (fun p => if p.1 = bn
          then (p.1, FsTree.file (updateBarrelForRename (updateBarrelForRename c o n) n o))
          else p)) = parent := by
  rw [List.map_map, List.map_map, List.map_map]
  refine map_eq_self_of_pointwise parent _ ?_
  intro p hp
  obtain ⟨pn, pv⟩ := p
  by_cases h1 : pn = o
  · subst h1
    have hu := findEntry_of_mem_nodup hnd hp
    rw [hold] at hu
    have hv : pv = FsTree.dir s := (Option.some.inj hu).symm
    subst hv
    simp [hbn, hbo]
  · by_cases h2 : pn = bn
    · subst h2
      have hu := findEntry_of_mem_nodup hnd hp
      rw [hbfile] at hu
      have hv : pv = FsTree.file c := (Option.some.inj hu).symm
      subst hv
      simp [Ne.symm hbo, Ne.symm hbn, h1, hrb]
    · have h3 : pn ≠ n := by
        intro he
        exact hnew (he ▸ List.mem_map.mpr ⟨(pn, pv), hp, rfl⟩)
      simp [h1, h2, h3]

/-- C4: round trip of the rename command, corrected.  For every supported
type, valid names A and B, resolvable pattern and parent listing in which
the old directory exists, the new name is free and the names are
pairwise distinct, renaming A to B and then B back to A restores the
parent byte-for-byte — provided the replacement pairs act invertibly on
every directory listing and every text file content of the resource
(`roundTrippableEntries`/`namesInvertible`), the resource's root names
differ from the barrel file name, and the barrel file is absent or its
content is restored by the reverse barrel rewrite.  Without these
invertibility conditions the round trip can fail (see the
counterexample): the claim as stated is too strong. -/
theorem rename_roundtrip (type A B : Str) (config : Config) (t : Tables) (cwd : Str)
    (parent sub : List (Str × FsTree)) (st : Structure)
    (hsup : RENAME_SUPPORTED_TYPES.contains type = true)
    (hvA : validateName A = true) (hvB : validateName B = true)
    (hst : lookupStructure t config = some st)
    (hnd : (parent.map Prod.fst).Nodup)
    (hold : findEntry parent (resolveBase type A st cwd) = some (FsTree.dir sub))
    (hnew : findEntry parent (resolveBase type B st cwd) = none)
    (hinv : namesInvertible (buildReplacementPairs A B) (buildReplacementPairs B A)
      (sub.map Prod.fst) = true)
    (hrt : roundTrippableEntries (buildReplacementPairs A B) (buildReplacementPairs B A)
      sub = true)
    (hbo : resolveBase type A st cwd ≠ "index.".data ++ (getExtensions config).scriptExt)
    (hbn : resolveBase type B st cwd ≠ "index.".data ++ (getExtensions config).scriptExt)
    (hbar : findEntry parent ("index.".data ++ (getExtensions config).scriptExt) = none
      ∨ ∃ c, findEntry parent ("index.".data ++ (getExtensions config).scriptExt)
          = some (FsTree.file c)
        ∧ updateBarrelForRename (updateBarrelForRename c (resolveBase type A st cwd)
            (resolveBase type B st cwd)) (resolveBase type B st cwd)
            (resolveBase type A st cwd) = c) :
    ∃ parent1, renameCommand type A B (some config) t cwd parent = .ok parent1
      ∧ renameCommand type B A (some config) t cwd parent1 = .ok parent := by
  have hsA := resolveDir_isSome type A st cwd hsup
  have hsB := resolveDir_isSome type B st cwd hsup
  obtain ⟨dA, hdA⟩ : ∃ d, resolveDir type A st cwd = some d := by
    cases h : resolveDir type A st cwd with
    | none => rw [h] at hsA; simp at hsA
    | some d => exact ⟨d, rfl⟩
  obtain ⟨dB, hdB⟩ : ∃ d, resolveDir type B st cwd = some d := by
    cases h : resolveDir type B st cwd with
    | none => rw [h] at hsB; simp at hsB
    | some d => exact ⟨d, rfl⟩
  have hbaseA : resolveBase type A st cwd = basename dA := by simp [resolveBase, hdA]
  have hbaseB : resolveBase type B st cwd = basename dB := by simp [resolveBase, hdB]
  rw [hbaseA] at hold hbo
  rw [hbaseB] at hnew hbn
  rw [hbaseA, hbaseB] at hbar
  have hnewm : basename dB ∉ parent.map Prod.fst := findEntry_eq_none.mp hnew
  have holdm : basename dA ∈ parent.map Prod.fst := by
    have hm := findEntry_some_mem hold
    exact List.mem_map.mpr ⟨_, hm, rfl⟩
  have honB : basename dA ≠ basename dB := by
    intro h
    rw [h, hnew] at hold
    exact Option.noConfusion hold
  have hwalkF : applyRenameRecursive (buildReplacementPairs A B) [] sub
      = .ok (renamedEntries (buildReplacementPairs A B) sub) :=
    applyRenameRecursive_rt_eq _ (buildReplacementPairs B A) [] [] sub rfl
      (by simpa using hinv) hrt
  have hwalkB : applyRenameRecursive (buildReplacementPairs B A) []
      (renamedEntries (buildReplacementPairs A B) sub) = .ok sub :=
    applyRenameRecursive_back_eq _ _ [] sub (by simpa using hinv) hrt
  have hcmd1 := renameCommand_eq_of type A B config t cwd parent st dA dB sub
    (renamedEntries (buildReplacementPairs A B) sub) hsup hvA hvB hst hdA hdB hold hnew hwalkF
  have hfnew1 : findEntry (parent.map (fun p => if p.1 = basename dA
      then (basename dB, FsTree.dir (renamedEntries (buildReplacementPairs A B) sub)) else p))
      (basename dB) = some (FsTree.dir (renamedEntries (buildReplacementPairs A B) sub)) :=
    findEntry_rename_new hnewm holdm
  have hfold1 : findEntry (parent.map (fun p => if p.1 = basename dA
      then (basename dB, FsTree.dir (renamedEntries (buildReplacementPairs A B) sub)) else p))
      (basename dA) = none :=
    findEntry_rename_old honB
  by_cases hfeat : type = "feature".data
  · rw [if_pos hfeat] at hcmd1
    refine ⟨_, hcmd1, ?_⟩
    have hcmd2 := renameCommand_eq_of type B A config t cwd
      (parent.map (fun p => if p.1 = basename dA
        then (basename dB, FsTree.dir (renamedEntries (buildReplacementPairs A B) sub)) else p))
      st dB dA (renamedEntries (buildReplacementPairs A B) sub) sub
      hsup hvB hvA hst hdB hdA hfnew1 hfold1 hwalkB
    rw [if_pos hfeat] at hcmd2
    rw [hcmd2]
    exact congrArg Except.ok
      (roundtrip_root_map parent (basename dA) (basename dB) sub _ hnd hold hnewm)
  · rcases hbar with hbnone | ⟨c, hbfile, hrb⟩
    · have hb1 : findEntry (parent.map (fun p => if p.1 = basename dA
          then (basename dB, FsTree.dir (renamedEntries (buildReplacementPairs A B) sub)) else p))
          ("index.".data ++ (getExtensions config).scriptExt) = none := by
        rw [findEntry_rename_preserve (Ne.symm hbo) (Ne.symm hbn)]
        exact hbnone
      have hok1 : renameCommand type A B (some config) t cwd parent
          = .ok (parent.map (fun p => if p.1 = basename dA
            then (basename dB, FsTree.dir (renamedEntries (buildReplacementPairs A B) sub))
            else p)) := by
        rw [hcmd1, if_neg hfeat, hb1]
      have hcmd2 := renameCommand_eq_of type B A config t cwd
        (parent.map (fun p => if p.1 = basename dA
          then (basename dB, FsTree.dir (renamedEntries (buildReplacementPairs A B) sub)) else p))
        st dB dA (renamedEntries (buildReplacementPairs A B) sub) sub
        hsup hvB hvA hst hdB hdA hfnew1 hfold1 hwalkB
      have hfe2 : findEntry ((parent.map (fun p => if p.1 = basename dA
          then (basename dB, FsTree.dir (renamedEntries (buildReplacementPairs A B) sub))
          else p)).map (fun p => if p.1 = basename dB then (basename dA, FsTree.dir sub) else p))
          ("index.".data ++ (getExtensions config).scriptExt) = none := by
        rw [findEntry_rename_preserve (Ne.symm hbn) (Ne.symm hbo)]
        exact hb1
      have hok2 : renameCommand type B A (some config) t cwd
          (parent.map (fun p => if p.1 = basename dA
            then (basename dB, FsTree.dir (renamedEntries (buildReplacementPairs A B) sub))
            else p))
          = .ok ((parent.map (fun p => if p.1 = basename dA
            then (basename dB, FsTree.dir (renamedEntries (buildReplacementPairs A B) sub))
            else p)).map (fun p => if p.1 = basename dB
              then (basename dA, FsTree.dir sub) else p)) := by
        rw [hcmd2, if_neg hfeat, hfe2]
      refine ⟨_, hok1, ?_⟩
      rw [hok2]
      exact congrArg Except.ok
        (roundtrip_root_map parent (basename dA) (basename dB) sub _ hnd hold hnewm)
    · have hb1 : findEntry (parent.map (fun p => if p.1 = basename dA
          then (basename dB, FsTree.dir (renamedEntries (buildReplacementPairs A B) sub)) else p))
          ("index.".data ++ (getExtensions config).scriptExt) = some (FsTree.file c) := by
        rw [findEntry_rename_preserve (Ne.symm hbo) (Ne.symm hbn)]
        exact hbfile
      have hok1 : renameCommand type A B (some config) t cwd parent
          = .ok ((parent.map (fun p => if p.1 = basename dA
            then (basename dB, FsTree.dir (renamedEntries (buildReplacementPairs A B) sub))
            else p)).map (fun p =>
              if p.1 = "index.".data ++ (getExtensions config).scriptExt
              then (p.1, FsTree.file (updateBarrelForRename c (basename dA) (basename dB)))
              else p)) := by
        rw [hcmd1, if_neg hfeat, hb1]
      have hfind2 : findEntry ((parent.map (fun p => if p.1 = basename dA
          then (basename dB, FsTree.dir (renamedEntries (buildReplacementPairs A B) sub))
          else p)).map (fun p =>
            if p.1 = "index.".data ++ (getExtensions config).scriptExt
            then (p.1, FsTree.file (updateBarrelForRename c (basename dA) (basename dB)))
            else p)) (basename dB)
          = some (FsTree.dir (renamedEntries (buildReplacementPairs A B) sub)) := by
        rw [findEntry_set_other hbn]
        exact hfnew1
      have hfold2 : findEntry ((parent.map (fun p => if p.1 = basename dA
          then (basename dB, FsTree.dir (renamedEntries (buildReplacementPairs A B) sub))
          else p)).map (fun p =>
            if p.1 = "index.".data ++ (getExtensions config).scriptExt
            then (p.1, FsTree.file (updateBarrelForRename c (basename dA) (basename dB)))
            else p)) (basename dA) = none := by
        rw [findEntry_set_other hbo]
        exact hfold1
      have hcmd2 := renameCommand_eq_of type B A config t cwd
        ((parent.map (fun p => if p.1 = basename dA
          then (basename dB, FsTree.dir (renamedEntries (buildReplacementPairs A B) sub))
          else p)).map (fun p =>
            if p.1 = "index.".data ++ (getExtensions config).scriptExt
            then (p.1, FsTree.file (updateBarrelForRename c (basename dA) (basename dB)))
            else p))
        st dB dA (renamedEntries (buildReplacementPairs A B) sub) sub
        hsup hvB hvA hst hdB hdA hfind2 hfold2 hwalkB
      have hfe2 : findEntry (((parent.map (fun p => if p.1 = basename dA
          then (basename dB, FsTree.dir (renamedEntries (buildReplacementPairs A B) sub))
          else p)).map (fun p =>
            if p.1 = "index.".data ++ (getExtensions config).scriptExt
            then (p.1, FsTree.file (updateBarrelForRename c (basename dA) (basename dB)))
            else p)).map (fun p => if p.1 = basename dB
              then (basename dA, FsTree.dir sub) else p))
          ("index.".data ++ (getExtensions config).scriptExt)
          = some (FsTree.file (updateBarrelForRename c (basename dA) (basename dB))) := by
        rw [findEntry_rename_preserve (Ne.symm hbn) (Ne.symm hbo)]
        exact findEntry_set_self hb1
      have hok2 : renameCommand type B A (some config) t cwd
          ((parent.map (fun p => if p.1 = basename dA
            then (basename dB, FsTree.dir (renamedEntries (buildReplacementPairs A B) sub))
            else p)).map (fun p =>
              if p.1 = "index.".data ++ (getExtensions config).scriptExt
              then (p.1, FsTree.file (updateBarrelForRename c (basename dA) (basename dB)))
              else p))
          = .ok ((((parent.map (fun p => if p.1 = basename dA
              then (basename dB, FsTree.dir (renamedEntries (buildReplacementPairs A B) sub))
              else p)).map (fun p =>
                if p.1 = "index.".data ++ (getExtensions config).scriptExt
                then (p.1, FsTree.file (updateBarrelForRename c (basename dA) (basename dB)))
                else p)).map (fun p => if p.1 = basename dB
                  then (basename dA, FsTree.dir sub) else p)).map (fun p =>
                    if p.1 = "index.".data ++ (getExtensions config).scriptExt
                    then (p.1, FsTree.file (updateBarrelForRename
                      (updateBarrelForRename c (basename dA) (basename dB))
                      (basename dB) (basename dA)))
                    else p)) := by
        rw [hcmd2, if_neg hfeat, hfe2]
      refine ⟨_, hok1, ?_⟩
      rw [hok2]
      exact congrArg Except.ok
        (roundtrip_full_map parent (basename dA) (basename dB)
          ("index.".data ++ (getExtensions config).scriptExt) sub
          (renamedEntries (buildReplacementPairs A B) sub) c hnd hold hnewm hbfile hbo hbn hrb)

/-- C4, counterexample: renaming `Auth` to `Cart` and back with the
rename command does not restore file contents byte-for-byte.  A text file
whose original content is the string `Cart` survives the forward rename
unchanged (no pair matches), but the reverse rename `Cart` back to `Auth`
rewrites it to `Auth`: the double rename succeeds and returns a tree whose
file content differs from the original (`Auth` vs `Cart`). -/
theorem rename_roundtrip_counterexample :
    (renameCommand "component".data "Auth".data "Cart".data (some exampleConfig) exampleTables
        "/proj".data [("Auth".data, FsTree.dir [("notes.ts".data, FsTree.file "Cart".data)])]
      >>= renameCommand "component".data "Cart".data "Auth".data (some exampleConfig)
        exampleTables "/proj".data)
      = .ok [("Auth".data, FsTree.dir [("notes.ts".data, FsTree.file "Auth".data)])]
    ∧ "Auth".data ≠ "Cart".data :=
  ⟨rfl, by decide⟩

/-- Witness for the corrected round-trip theorem: a concrete component
rename `Auth` to `Cart` and back on a parent with one component directory
and a barrel file, all hypotheses discharged by computation. -/
theorem rename_roundtrip_witness :
    validateName "Auth".data = true
    ∧ validateName "Cart".data = true
    ∧ (exampleRenameParent.map Prod.fst).Nodup
    ∧ ∃ parent1,
        renameCommand "component".data "Auth".data "Cart".data (some exampleConfig)
          exampleTables "/proj".data exampleRenameParent = .ok parent1
        ∧ renameCommand "component".data "Cart".data "Auth".data (some exampleConfig)
          exampleTables "/proj".data parent1 = .ok exampleRenameParent :=
  ⟨by decide, by decide, by decide,
    rename_roundtrip "component".data "Auth".data "Cart".data exampleConfig exampleTables
      "/proj".data exampleRenameParent exampleRenameSub exampleStructure
      (by decide) (by decide) (by decide) rfl (by decide) rfl rfl (by decide) (by decide)
      (by decide) (by decide)
      (Or.inr ⟨"export \x7b default as Auth \x7d from './Auth';\n".data, rfl, rfl⟩)⟩

end Rchitect
